import Mathlib

/-!
Shallow embedding of the antipattern-db core: the build-time shard/index
generator (`DataSplitter.validateRecords`, `IndexGenerator.analyzeRecord`,
`IndexGenerator.generateFieldIndex`) and the runtime query engine
(`QueryEngine.executeQuery`, `getRecord`, `getRecordIdsFromIndex`,
`scanRecordsForFilter`, `recordMatchesFilter`, `getNestedValue`).

Records are JSON values (`Value`): null, booleans, integers, strings,
arrays, objects.  JSON numbers are modelled as integers (every number
appearing in the specification's scenarios is an integer); JS `undefined`
is modelled as absence (`Option Value` = `none`), which is faithful for
data obtained from `JSON.parse`.  Object-valued primary keys and
prototype-inherited properties are outside the modelled domain (the
specification fixes the primary key to be a scalar field).  Wall-clock
fields (`executionTime`, `createdAt`) and byte sizes of serialized shards
are not modelled; no property below depends on them.
-/

inductive Value where
  | vnull : Value
  | vbool : Bool → Value
  | vint : Int → Value
  | vstr : String → Value
  | varr : List Value → Value
  | vobj : List (String × Value) → Value

open Value

/-- `typeof v !== 'object' || v === null` style scalar test: the source's
`isPrimitive` (string, number, boolean or null). -/
def isPrimitive : Value → Bool
  | vnull => true
  | vbool _ => true
  | vint _ => true
  | vstr _ => true
  | varr _ => false
  | vobj _ => false

/-- JS SameValueZero / strict equality restricted to the modelled domain:
structural on scalars; `false` between arrays/objects, because two values
arriving from different parses are distinct references in JS.  All
comparisons performed by the source cross such a boundary (filter value
vs. loaded record, stored index entry vs. filter value). -/
def veq : Value → Value → Bool
  | vnull, vnull => true
  | vbool a, vbool b => a == b
  | vint a, vint b => a == b
  | vstr a, vstr b => a == b
  | _, _ => false

/-- Decimal digit to character. -/
def digitChar : Nat → Char
  | 0 => '0' | 1 => '1' | 2 => '2' | 3 => '3' | 4 => '4'
  | 5 => '5' | 6 => '6' | 7 => '7' | 8 => '8' | _ => '9'

/-- Decimal rendering of a natural number (the fuel argument, bounded by
the number itself, only makes the recursion structural). -/
def natToStrAux : Nat → Nat → List Char
  | 0, _ => []
  | fuel + 1, n =>
    if n < 10 then [digitChar n] else natToStrAux fuel (n / 10) ++ [digitChar (n % 10)]

def natToStr (n : Nat) : String := String.mk (natToStrAux (n + 1) n)

/-- JS `String(number)` for the modelled (integer) numbers. -/
def intToStr (i : Int) : String :=
  if i < 0 then "-" ++ natToStr i.natAbs else natToStr i.natAbs

def isDigitChar (c : Char) : Bool := '0' ≤ c ∧ c ≤ '9'

def digitVal (c : Char) : Nat := c.toNat - 48

def charsToNatAux (acc : Nat) : List Char → Nat
  | [] => acc
  | c :: rest => charsToNatAux (acc * 10 + digitVal c) rest

/-- Parse a nonempty all-digit character list as a natural number
(`none` otherwise). -/
def charsToNat : List Char → Option Nat
  | [] => none
  | l => if l.all isDigitChar then some (charsToNatAux 0 l) else none

/-- Strip leading and trailing whitespace (JS `String.prototype.trim`). -/
def trimChars (l : List Char) : List Char :=
  ((l.dropWhile Char.isWhitespace).reverse.dropWhile Char.isWhitespace).reverse

def listStartsWith : List Char → List Char → Bool
  | _, [] => true
  | [], _ :: _ => false
  | a :: as, b :: bs => a = b ∧ listStartsWith as bs

/-- `path.split('.')` (JS split on a one-character separator). -/
def splitDotsAux : List Char → List Char → List String
  | [], cur => [String.mk cur.reverse]
  | c :: rest, cur =>
    if c = '.' then String.mk cur.reverse :: splitDotsAux rest []
    else splitDotsAux rest (c :: cur)

def splitDots (s : String) : List String := splitDotsAux s.data []

/-- JS truthiness of a JSON value. -/
def jsTruthy : Value → Bool
  | vnull => false
  | vbool b => b
  | vint n => n != 0
  | vstr s => s ≠ ""
  | varr _ => true
  | vobj _ => true

mutual

/-- JS `String(v)` for JSON values (`ToString`): arrays join their
elements with commas, objects render as "[object Object]". -/
def valueToString : Value → String
  | vnull => "null"
  | vbool b => if b then "true" else "false"
  | vint n => intToStr n
  | vstr s => s
  | varr items => arrayJoin items
  | vobj _ => "[object Object]"

/-- `Array.prototype.toString` = `join(',')`: elements stringified and
comma-joined, null/undefined elements rendered as the empty string. -/
def arrayJoin : List Value → String
  | [] => ""
  | [vnull] => ""
  | [v] => valueToString v
  | vnull :: rest => "," ++ arrayJoin rest
  | v :: rest => valueToString v ++ "," ++ arrayJoin rest

end

/-- Parse a trimmed string as a JS number, integers only (the modelled
number domain): "" is 0, optional sign then digits; anything else is NaN
(`none`). -/
def strToNumber (s : String) : Option Int :=
  match trimChars s.data with
  | [] => some 0
  | '-' :: ds => (charsToNat ds).map (fun n => -(n : Int))
  | '+' :: ds => (charsToNat ds).map (fun n => (n : Int))
  | ds => (charsToNat ds).map (fun n => (n : Int))

/-- JS `ToNumber` on a primitive obtained from `ToPrimitive`: NaN is
`none`. -/
def toNumber : Value → Option Int
  | vnull => some 0
  | vbool b => some (if b then 1 else 0)
  | vint n => some n
  | vstr s => strToNumber s
  | varr items => strToNumber (arrayJoin items)
  | vobj _ => none

/-- JS `ToPrimitive` of a JSON value: arrays and objects become their
string form, everything else is already primitive. -/
def toPrimitive : Value → Value
  | varr items => vstr (arrayJoin items)
  | vobj _ => vstr "[object Object]"
  | v => v

/-- Code-unit-wise lexicographic `<` on strings (JS string relational
comparison); written by recursion so it evaluates by `decide`/`rfl`. -/
def charListLt : List Char → List Char → Bool
  | [], [] => false
  | [], _ :: _ => true
  | _ :: _, [] => false
  | a :: as, b :: bs => if a = b then charListLt as bs else decide (a < b)

def strLt (a b : String) : Bool := charListLt a.data b.data

/-- JS abstract relational comparison `x < y` with three-valued result:
`none` means the comparison is undefined (NaN involved). -/
def jsLtOpt (x y : Value) : Option Bool :=
  match toPrimitive x, toPrimitive y with
  | vstr a, vstr b => some (strLt a b)
  | px, py =>
    match toNumber px, toNumber py with
    | some a, some b => some (decide (a < b))
    | _, _ => none

/-- `x < y` (undefined comparison is false). -/
def jsLt (x y : Value) : Bool := (jsLtOpt x y).getD false

/-- `x > y` (swapped relational comparison). -/
def jsGt (x y : Value) : Bool := (jsLtOpt y x).getD false

/-- `x >= y`: true when `x < y` is defined and false. -/
def jsGe (x y : Value) : Bool :=
  match jsLtOpt x y with
  | some b => !b
  | none => false

/-- `x <= y`: true when `y < x` is defined and false. -/
def jsLe (x y : Value) : Bool :=
  match jsLtOpt y x with
  | some b => !b
  | none => false

/-- Lift of the JS comparisons to a possibly-undefined left operand
(`getNestedValue` may produce `undefined`): `undefined` relationally
compares as NaN, so every relational comparison with it is false. -/
def jsLtO (x : Option Value) (y : Value) : Bool :=
  match x with | some v => jsLt v y | none => false

def jsGtO (x : Option Value) (y : Value) : Bool :=
  match x with | some v => jsGt v y | none => false

def jsGeO (x : Option Value) (y : Value) : Bool :=
  match x with | some v => jsGe v y | none => false

def jsLeO (x : Option Value) (y : Value) : Bool :=
  match x with | some v => jsLe v y | none => false

/-- `undefined === v` is false for every JSON value `v`. -/
def strictEqO (x : Option Value) (y : Value) : Bool :=
  match x with | some v => veq v y | none => false

/-- `String.prototype.includes` (substring test). -/
def strIncludes (hay needle : String) : Bool :=
  (List.range (hay.length + 1)).any (fun i => ((hay.drop i).take needle.length) = needle)

def strStartsWith (s p : String) : Bool := listStartsWith s.data p.data

def strEndsWith (s p : String) : Bool := listStartsWith s.data.reverse p.data.reverse

/-- `Array.prototype.includes` (SameValueZero membership). -/
def arrIncludes (items : List Value) (v : Value) : Bool := items.any (fun x => veq x v)

/-! ## Query engine (`src/runtime/core/query-engine`, QueryEngine class)

The engine's I/O surface (`DataLoader`) is modelled as a pure structure
`DB`: the shard manifest's file list, the primary-index entry ids, the
per-field index loader (`none` models a missing or unreadable index file
-- `loadIndex` catches its own errors and returns null, which makes
`getRecordIdsFromIndex` throw and `getRecordIdsForFilter` fall back to a
scan), and the per-record shard loader (`Except` models a throwing
loader, `ok none` a shard that is missing or does not contain the id).
Caches are not modelled: cache population is idempotent over an immutable
store, so the cached and uncached engines compute the same function. -/

/-- One filter predicate.  The operator is a string, as in the TS string
enum `QueryOperator`; values outside the ten members are representable,
exactly as they are at the JS runtime. -/
structure QueryFilter where
  field : String
  operator : String
  value : Value

/-- One sort key (`direction` is the string "asc" or "desc"). -/
structure QuerySort where
  field : String
  direction : String

structure QueryOptions where
  limit : Option Nat := none
  offset : Option Nat := none
  sort : List QuerySort := []

/-- `executionTime` (wall clock) is not modelled. -/
structure QueryResult where
  records : List Value
  totalCount : Nat
  hasMore : Bool

structure IndexEntry where
  value : Value
  recordIds : List String

/-- A field index in the new format (`{field, entries:[{value, recordIds}]}`);
the metadata block is not consulted by the engine's matcher. -/
structure IndexData where
  field : String
  entries : List IndexEntry

structure FileMeta where
  filename : String
  recordCount : Nat
  size : Nat
  recordIds : List String
  subdirectory : Option String := none

/-- The engine's data-loader surface. -/
structure DB where
  files : List FileMeta
  primaryEntries : List String
  loadIndexF : String → Option IndexData
  loadRecordF : String → FileMeta → Except String (Option Value)

/-- JS `Set` insertion order: append if absent. -/
def setAdd (l : List String) (id : String) : List String :=
  if id ∈ l then l else l ++ [id]

def setAddAll (l : List String) (ids : List String) : List String :=
  ids.foldl setAdd l

/-- `getNestedValue`: `path.split('.').reduce((current, key) =>
current && current[key] !== undefined ? current[key] : undefined, obj)`.
`none` is JS `undefined`. -/
def propGet : Value → String → Option Value
  | vobj fields, key => List.lookup key fields
  | varr items, key =>
      if key = "length" then some (vint items.length)
      else match charsToNat key.data with
        | some i => items.get? i
        | none => none
  | vstr s, key =>
      if key = "length" then some (vint s.length)
      else match charsToNat key.data with
        | some i => (s.data.get? i).map (fun c => vstr (String.mk [c]))
        | none => none
  | _, _ => none

def getNestedStep (cur : Option Value) (key : String) : Option Value :=
  match cur with
  | none => none
  | some v => if jsTruthy v then propGet v key else none

def getNestedValue (obj : Value) (path : String) : Option Value :=
  (splitDots path).foldl getNestedStep (some obj)

/-- `QueryEngine.recordMatchesFilter`: evaluate one predicate directly
against the loaded record by dot-path lookup.  The final `else` is the
switch's default branch: unknown operators match nothing. -/
def recordMatchesFilter (record : Value) (f : QueryFilter) : Bool :=
  let value := getNestedValue record f.field
  if f.operator = "EQUALS" then strictEqO value f.value
  else if f.operator = "NOT_EQUALS" then !(strictEqO value f.value)
  else if f.operator = "GREATER_THAN" then jsGtO value f.value
  else if f.operator = "LESS_THAN" then jsLtO value f.value
  else if f.operator = "GREATER_THAN_OR_EQUAL" then jsGeO value f.value
  else if f.operator = "LESS_THAN_OR_EQUAL" then jsLeO value f.value
  else if f.operator = "IN" then
    match f.value, value with
    | varr items, some v => arrIncludes items v
    | _, _ => false
  else if f.operator = "CONTAINS" then
    match value with
    | some (varr items) => arrIncludes items f.value
    | some (vstr s) =>
        match f.value with
        | vstr p => strIncludes s p
        | _ => false
    | _ => false
  else if f.operator = "STARTS_WITH" then
    match value, f.value with
    | some (vstr s), vstr p => strStartsWith s p
    | _, _ => false
  else if f.operator = "ENDS_WITH" then
    match value, f.value with
    | some (vstr s), vstr p => strEndsWith s p
    | _, _ => false
  else false

def recordMatchesFilters (record : Value) (filters : List QueryFilter) : Bool :=
  filters.all (recordMatchesFilter record)

/-- The per-entry `switch` of `getRecordIdsFromIndex`: `matches` starts
false and stays false on an unknown operator. -/
def indexEntryMatches (f : QueryFilter) (v : Value) : Bool :=
  if f.operator = "EQUALS" then veq v f.value
  else if f.operator = "NOT_EQUALS" then !(veq v f.value)
  else if f.operator = "GREATER_THAN" then jsGt v f.value
  else if f.operator = "LESS_THAN" then jsLt v f.value
  else if f.operator = "GREATER_THAN_OR_EQUAL" then jsGe v f.value
  else if f.operator = "LESS_THAN_OR_EQUAL" then jsLe v f.value
  else if f.operator = "IN" then
    match f.value with
    | varr items => arrIncludes items v
    | _ => false
  else if f.operator = "CONTAINS" then
    match v with
    | varr items => arrIncludes items f.value
    | vstr s =>
        match f.value with
        | vstr p => strIncludes s p
        | _ => false
    | _ => false
  else if f.operator = "STARTS_WITH" then
    match v, f.value with
    | vstr s, vstr p => strStartsWith s p
    | _, _ => false
  else if f.operator = "ENDS_WITH" then
    match v, f.value with
    | vstr s, vstr p => strEndsWith s p
    | _, _ => false
  else false

/-- `getRecordIdsFromIndex` on a loaded (new-format) index: union the
record-id sets of every matching entry. -/
def getRecordIdsFromIndex (idx : IndexData) (f : QueryFilter) : List String :=
  idx.entries.foldl
    (fun acc e => if indexEntryMatches f e.value then setAddAll acc e.recordIds else acc) []

/-- `getAllRecordIds`: every id of the primary index, as a Set. -/
def getAllRecordIds (db : DB) : List String :=
  db.primaryEntries.foldl setAdd []

/-- `QueryEngine.loadRecord`: locate the shard via the manifest
(`files.find(f => f.recordIds.includes(id))`); a missing manifest entry,
a loader error, or a shard without the record all yield null. -/
def loadRecord (db : DB) (id : String) : Option Value :=
  match db.files.find? (fun fm => id ∈ fm.recordIds) with
  | none => none
  | some fm =>
    match db.loadRecordF id fm with
    | .error _ => none
    | .ok r => r

/-- `getRecord(id)`. -/
def getRecord (db : DB) (id : String) : Option Value :=
  loadRecord db id

/-- `scanRecordsForFilter`: full scan over every primary-index id,
evaluating the predicate against each loaded record. -/
def scanRecordsForFilter (db : DB) (f : QueryFilter) : List String :=
  (getAllRecordIds db).foldl
    (fun acc id =>
      match loadRecord db id with
      | some r => if recordMatchesFilter r f then setAdd acc id else acc
      | none => acc) []

/-- `getRecordIdsForFilter`: try the index, fall back to a scan when the
index is missing (`loadIndex` returned null, so `getRecordIdsFromIndex`
threw). -/
def getRecordIdsForFilter (db : DB) (f : QueryFilter) : List String :=
  match db.loadIndexF f.field with
  | some idx => getRecordIdsFromIndex idx f
  | none => scanRecordsForFilter db f

/-- The filter loop of `executeQuery`: intersect each filter's candidate
set with the running set, stopping early once it is empty. -/
def candLoop (db : DB) : List String → List QueryFilter → List String
  | cur, [] => cur
  | cur, f :: fs =>
    let inter := cur.filter (fun id => id ∈ getRecordIdsForFilter db f)
    if inter.isEmpty then inter else candLoop db inter fs

/-- Candidate resolution: the first filter seeds the running set; with no
filters every primary-index id is a candidate. -/
def queryCandidates (db : DB) (filters : List QueryFilter) : List String :=
  match filters with
  | [] => getAllRecordIds db
  | f :: fs => candLoop db (getRecordIdsForFilter db f) fs

/-- Record loading plus defensive re-validation: a candidate is kept only
if it loads and passes every filter directly. -/
def loadAndRevalidate (db : DB) (filters : List QueryFilter) (cands : List String) :
    List Value :=
  cands.filterMap (fun id =>
    match loadRecord db id with
    | some r => if recordMatchesFilters r filters then some r else none
    | none => none)

/-- The sort comparator of `applySorting`: first differing key decides,
`desc` negates, exhausted keys compare equal. -/
def compareRecords (sortOpts : List QuerySort) (a b : Value) : Int :=
  match sortOpts with
  | [] => 0
  | s :: rest =>
    let aVal := getNestedValue a s.field
    let bVal := getNestedValue b s.field
    let comparison : Int :=
      match aVal, bVal with
      | some av, some bv => if jsLt av bv then -1 else if jsLt bv av then 1 else 0
      | _, _ => 0
    if comparison ≠ 0 then (if s.direction = "desc" then -comparison else comparison)
    else compareRecords rest a b

/-- `applySorting` as a stable sort (the host's `Array.prototype.sort` is
stable; a stable insertion sort computes the same list for a
comparator-consistent ordering). -/
def applySorting (records : List Value) (sortOpts : List QuerySort) : List Value :=
  List.insertionSort (fun a b => compareRecords sortOpts a b ≤ 0) records

/-- JS truthiness of the numeric `limit` option: `limit ? ... : ...` is
false for both `undefined` and `0`. -/
def limitTruthy : Option Nat → Bool
  | some l => l != 0
  | none => false

/-- `executeQuery(filters, options)`. -/
def executeQuery (db : DB) (filters : List QueryFilter) (opts : QueryOptions) :
    QueryResult :=
  let cands := queryCandidates db filters
  let loaded := loadAndRevalidate db filters cands
  let sorted := if opts.sort.isEmpty then loaded else applySorting loaded opts.sort
  let offset := opts.offset.getD 0
  let totalRecords := loaded.length
  let paginated :=
    if limitTruthy opts.limit then (sorted.drop offset).take (opts.limit.getD 0)
    else sorted.drop offset
  let hasMore :=
    if limitTruthy opts.limit then decide (offset + opts.limit.getD 0 < totalRecords)
    else false
  ⟨paginated, totalRecords, hasMore⟩

/-! ## Build-time components

`DataSplitter.validateRecords` (src/builder/data-splitter.ts) and
`IndexGenerator` (src/builder/index-generator.ts).  `fieldStats` is a JS
`Map<string, Map<unknown, Set<string>>>`; JS maps preserve insertion
order and `set` on an existing key keeps its position, so they are
modelled as association lists with in-place update / append-on-new.  The
inner map's keys are always scalars (`isPrimitive` guards every
`addToIndex` call site), so SameValueZero key equality coincides with
`veq`.  Records are objects (the specification's record domain); the
walk is only ever entered on objects. -/

/-- `Object.prototype.hasOwnProperty.call(record, field)`. -/
def hasOwn : Value → String → Bool
  | vobj fields, k => (fields.map Prod.fst).contains k
  | _, _ => false

/-- `record[field]` own-property access on an object (`none` = absent,
i.e. JS `undefined`). -/
def getOwn : Value → String → Option Value
  | vobj fields, k => List.lookup k fields
  | _, _ => none

/-- The build-time validation errors of `validateRecords`, in the order
the source checks them.  `duplicateKey` carries the offending
`record[primaryKeyField]` value (`none` would be JS `undefined`). -/
inductive SplitError where
  | noRecords
  | missingPkField
  | duplicateKey (v : Option Value)

/-- SameValueZero on possibly-undefined primary-key values (JS `Set`
membership). -/
def oveq : Option Value → Option Value → Bool
  | some a, some b => veq a b
  | none, none => true
  | _, _ => false

/-- The duplicate-detection loop of `validateRecords`: walk the records,
remembering every primary-key value seen, failing on the first repeat. -/
def findDup (pk : String) : List (Option Value) → List Value → Option SplitError
  | _, [] => none
  | seen, r :: rest =>
    let id := getOwn r pk
    if seen.any (oveq id) then some (.duplicateKey id)
    else findDup pk (id :: seen) rest

/-- `DataSplitter.validateRecords`: empty input, a record without the
primary-key own property, or a duplicate primary-key value (JS `Set`
semantics, so `null` duplicates count) aborts the build. -/
def validateRecords (records : List Value) (pk : String) : Option SplitError :=
  if records.isEmpty then some .noRecords
  else if !(records.all (fun r => hasOwn r pk)) then some .missingPkField
  else findDup pk [] records

/-- Per-field statistics: observed value → record-id set. -/
abbrev ValMap := List (Value × List String)

structure FieldMeta where
  count : Nat
  ftype : String

/-- The `IndexGenerator` accumulator: `fieldStats` and `fieldMetadata`. -/
structure BuildState where
  fieldStats : List (String × ValMap)
  fieldMetadata : List (String × FieldMeta)

def emptyBuildState : BuildState := ⟨[], []⟩

def vmFind : ValMap → Value → Option (List String)
  | [], _ => none
  | (k, ids) :: rest, v => if veq k v then some ids else vmFind rest v

def vmSet : ValMap → Value → List String → ValMap
  | [], v, ids => [(v, ids)]
  | (k, ids') :: rest, v, ids =>
    if veq k v then (k, ids) :: rest else (k, ids') :: vmSet rest v ids

/-- `addToIndex`: create the value's Set on first sight, then add the
record id. -/
def addToIndex (vm : ValMap) (value : Value) (recordId : String) : ValMap :=
  match vmFind vm value with
  | none => vm ++ [(value, [recordId])]
  | some ids => vmSet vm value (setAdd ids recordId)

def alModify (m : List (String × β)) (k : String) (f : β → β) : List (String × β) :=
  match m with
  | [] => []
  | (k', v) :: rest => if k' = k then (k', f v) :: rest else (k', v) :: alModify rest k f

/-- The two `if (!this.fieldStats.has(...)) set(...)` guards at the top
of the field loop. -/
def ensureField (st : BuildState) (p : String) : BuildState :=
  let fs := match List.lookup p st.fieldStats with
    | some _ => st.fieldStats
    | none => st.fieldStats ++ [(p, [])]
  let fm := match List.lookup p st.fieldMetadata with
    | some _ => st.fieldMetadata
    | none => st.fieldMetadata ++ [(p, ⟨0, "primitive"⟩)]
  ⟨fs, fm⟩

/-- `metadata.count++`. -/
def incCount (st : BuildState) (p : String) : BuildState :=
  { st with fieldMetadata := alModify st.fieldMetadata p (fun m => { m with count := m.count + 1 }) }

/-- `metadata.type = ...`. -/
def setFType (st : BuildState) (p : String) (t : String) : BuildState :=
  { st with fieldMetadata := alModify st.fieldMetadata p (fun m => { m with ftype := t }) }

/-- Record an observation: `addToIndex(stats, value, recordId)` on the
path's value map. -/
def addObs (st : BuildState) (p : String) (v : Value) (recordId : String) : BuildState :=
  { st with fieldStats := alModify st.fieldStats p (fun vm => addToIndex vm v recordId) }

/-- `prefix ? prefix + '.' + key : key` — the dotted path of a field. -/
def mkFieldPath (pfx key : String) : String :=
  if pfx = "" then key else pfx ++ "." ++ key

mutual

/-- The field loop of `IndexGenerator.analyzeRecord`.  Faithful to the
source, including its early `return` in the null/undefined branch: a
null-valued field records a null observation and then aborts the walk of
the REMAINING fields of this (sub)object. -/
def analyzeFields : BuildState → List (String × Value) → String → String → BuildState
  | st, [], _, _ => st
  | st, (key, value) :: rest, recordId, pfx =>
    let fieldPath := mkFieldPath pfx key
    let st1 := incCount (ensureField st fieldPath) fieldPath
    match value with
    | vnull => addObs st1 fieldPath vnull recordId
    | varr items =>
      let st2 := setFType st1 fieldPath "array"
      let st3 := items.foldl
        (fun s item => if isPrimitive item then addObs s fieldPath item recordId else s) st2
      let st4 := analyzeArrayObjects st3 items recordId (fieldPath ++ "[]")
      analyzeFields st4 rest recordId pfx
    | vobj fs =>
      let st2 := setFType st1 fieldPath "nested"
      let st3 := analyzeFields st2 fs recordId fieldPath
      analyzeFields st3 rest recordId pfx
    | prim =>
      analyzeFields (addObs st1 fieldPath prim recordId) rest recordId pfx

/-- The second `forEach` of the array branch: recurse into object
elements with the array field's path suffixed by "[]". -/
def analyzeArrayObjects : BuildState → List Value → String → String → BuildState
  | st, [], _, _ => st
  | st, vobj fs :: rest, recordId, pfx =>
    analyzeArrayObjects (analyzeFields st fs recordId pfx) rest recordId pfx
  | st, _ :: rest, recordId, pfx => analyzeArrayObjects st rest recordId pfx

end

/-- `IndexGenerator.analyzeRecord`: only objects are walked. -/
def analyzeRecord (st : BuildState) (record : Value) (recordId : String) (pfx : String) :
    BuildState :=
  match record with
  | vobj fields => analyzeFields st fields recordId pfx
  | _ => st

/-- `record[primaryKeyField] || index.toString()` — the record id used by
the index generator (falsy primary keys fall back to the position). -/
def recordIdOf (pk : String) (record : Value) (idx : Nat) : String :=
  match getOwn record pk with
  | some v => if jsTruthy v then valueToString v else natToStr idx
  | none => natToStr idx

/-- The analysis pass of `generateIndexes`: fold `analyzeRecord` over all
records with prefix "". -/
def buildStats (records : List Value) (pk : String) : BuildState :=
  records.enum.foldl (fun st p => analyzeRecord st p.2 (recordIdOf pk p.2 p.1) "")
    emptyBuildState

/-- `generateFieldIndex` entry construction: ids of each value sorted
lexicographically (`Array.from(set).sort()`), then entries sorted by
descending record count (stable). -/
def fieldIndexEntries (vm : ValMap) : List IndexEntry :=
  let entries := vm.map
    (fun p => IndexEntry.mk p.1 (List.insertionSort (fun a b => strLt b a = false) p.2))
  List.insertionSort (fun a b => b.recordIds.length ≤ a.recordIds.length) entries

/-- The coverage written into a field index's metadata:
`(fieldMetadata.get(fieldPath)?.count || 0) / totalRecords`. -/
def fieldCoverage (st : BuildState) (p : String) (totalRecords : Nat) : ℚ :=
  (((List.lookup p st.fieldMetadata).map FieldMeta.count).getD 0 : ℚ) / (totalRecords : ℚ)

/-- The number of distinct records that contributed at least one
observation at a path (what the specification calls coverage's
numerator). -/
def recordsObservedAt (st : BuildState) (p : String) : Nat :=
  ((((List.lookup p st.fieldStats).getD []).map Prod.snd).foldl setAddAll []).length

/-- The per-field index made available to the engine by a build:
apply the cardinality threshold then the allow-list (`generateIndexes`
loop); `none` for unknown fields or skipped ones. -/
def builtLoadIndex (st : BuildState) (maxVals : Nat) (allow : Option (List String))
    (field : String) : Option IndexData :=
  match List.lookup field st.fieldStats with
  | none => none
  | some vm =>
    if vm.length > maxVals then none
    else
      match allow with
      | some fields => if field ∈ fields then some ⟨field, fieldIndexEntries vm⟩ else none
      | none => some ⟨field, fieldIndexEntries vm⟩

/-- `String(record[primaryKeyField])` as stored by the splitter's
manifest (ids are strings in the modelled domain, per the spec's "stable
string form"). -/
def pkRawId (pk : String) (r : Value) : String :=
  match getOwn r pk with
  | some v => valueToString v
  | none => "undefined"

def padNum (n : Nat) (w : Nat) : String :=
  let s := natToStr n
  String.mk (List.replicate (w - s.length) '0') ++ s

def chunkListF : Nat → Nat → List α → List (List α)
  | 0, _, _ => []
  | _ + 1, _, [] => []
  | fuel + 1, n, x :: rest => ((x :: rest).take n) :: chunkListF fuel n ((x :: rest).drop n)

/-- The batch loop `for (i = 0; i < records.length; i += batchSize)`:
consecutive slices of `batchSize` records.  The fuel argument (bounded by
the list length, enough for any `batchSize ≥ 1`) only makes the recursion
structural. -/
def chunkList (n : Nat) (l : List α) : List (List α) := chunkListF l.length n l

/-- `sanitizeId` / `sanitizeFieldName` character class `[^a-zA-Z0-9.-]`. -/
def sanitizeChar (c : Char) : Char :=
  if ('a' ≤ c ∧ c ≤ 'z') ∨ ('A' ≤ c ∧ c ≤ 'Z') ∨ ('0' ≤ c ∧ c ≤ '9') ∨ c = '.' ∨ c = '-'
  then c else '_'

def collapseUnderscores : List Char → List Char
  | [] => []
  | [c] => [c]
  | c :: d :: rest =>
    if c = '_' ∧ d = '_' then collapseUnderscores (d :: rest)
    else c :: collapseUnderscores (d :: rest)

def trimUnderscore (l : List Char) : List Char :=
  let l := match l with | '_' :: rest => rest | x => x
  match l.reverse with | '_' :: rest => rest.reverse | _ => l

/-- `DataSplitter.sanitizeId`: stringify, replace characters outside
`[a-zA-Z0-9.-]`, collapse runs of underscores, strip one leading/trailing
underscore, cap at 50 characters. -/
def sanitizeId (id : String) : String :=
  String.mk (((trimUnderscore (collapseUnderscores (id.data.map sanitizeChar)))).take 50)

/-- Shard files with their contents (batch mode for `batchSize > 1`, one
record per file otherwise); `size` would be the serialized byte length,
which is not modelled (no claim depends on it). -/
def splitFilesWithContent (records : List Value) (pk : String) (batchSize : Nat)
    (useSub : Bool) : List (FileMeta × List Value) :=
  if batchSize > 1 then
    (chunkList batchSize records).enum.map (fun p =>
      let filename := "batch_" ++ padNum p.1 4 ++ ".json"
      let sub := if useSub then some ("batches_" ++ padNum (p.1 / 100) 3) else none
      let rel := match sub with | some d => d ++ "/" ++ filename | none => filename
      (⟨rel, p.2.length, 0, p.2.map (pkRawId pk), sub⟩, p.2))
  else
    records.enum.map (fun p =>
      let filename := sanitizeId (pkRawId pk p.2) ++ ".json"
      let sub := if useSub then some (padNum (p.1 / 1000) 3) else none
      let rel := match sub with | some d => d ++ "/" ++ filename | none => filename
      (⟨rel, 1, 0, [pkRawId pk p.2], sub⟩, [p.2]))

/-- `NodeDataLoader.loadRecord` over built shard contents: find the
record in the shard whose primary key strictly equals the requested id. -/
def builtLoadRecord (filesWithContent : List (FileMeta × List Value)) (pk : String)
    (id : String) (fm : FileMeta) : Except String (Option Value) :=
  match filesWithContent.find? (fun p => p.1.filename = fm.filename) with
  | none => .ok none
  | some p => .ok (p.2.find? (fun r => pkRawId pk r = id))

/-- A built database: manifest, primary index and field indexes exactly
as the builder produces them from a record collection. -/
def buildDB (records : List Value) (pk : String) (batchSize : Nat) (useSub : Bool)
    (maxVals : Nat) (allow : Option (List String)) : DB :=
  let st := buildStats records pk
  let fwc := splitFilesWithContent records pk batchSize useSub
  { files := fwc.map Prod.fst
    primaryEntries := records.enum.map (fun p => recordIdOf pk p.2 p.1)
    loadIndexF := builtLoadIndex st maxVals allow
    loadRecordF := builtLoadRecord fwc pk }

/-- The predicate a full scan applies to one id. -/
def scanKeeps (db : DB) (f : QueryFilter) (id : String) : Bool :=
  match loadRecord db id with
  | some r => recordMatchesFilter r f
  | none => false

/-! ## Concrete databases used by counterexamples and witnesses

The three-record collection of the specification's scenario 1, built with
one record per shard (batchSize 1), the default cardinality threshold and
no allow-list. -/

def recU1 : Value := vobj [("id", vstr "u1"), ("age", vint 30), ("status", vstr "active")]

def recU2 : Value := vobj [("id", vstr "u2"), ("age", vint 25), ("status", vstr "active")]

def recU3 : Value := vobj [("id", vstr "u3"), ("age", vint 40), ("status", vstr "inactive")]

def db3 : DB := buildDB [recU1, recU2, recU3] "id" 1 true 10000 none

/-- A two-record collection where record "2" lacks the field "a"
entirely; built the same way. -/
def recA1 : Value := vobj [("id", vstr "1"), ("a", vint 5)]

def recA2 : Value := vobj [("id", vstr "2")]

def dbA : DB := buildDB [recA1, recA2] "id" 1 true 10000 none

/-- The same database with the field index for "a" removed. -/
def dbAnoIndex : DB :=
  { dbA with loadIndexF := fun f => if f = "a" then none else dbA.loadIndexF f }

/-! ## Evaluated analysis states of the concrete databases

`buildStats` is compiled by well-founded recursion, so concrete runs are
evaluated once into literal states by `simp` with the walk's equations;
everything downstream then reduces definitionally. -/

def stA : BuildState :=
  ⟨[("id", [(vstr "1", ["1"]), (vstr "2", ["2"])]),
    ("a", [(vint 5, ["1"])])],
   [("id", ⟨2, "primitive"⟩),
    ("a", ⟨1, "primitive"⟩)]⟩

def dbAlit : DB :=
  { files := (splitFilesWithContent [recA1, recA2] "id" 1 true).map Prod.fst
    primaryEntries := [recA1, recA2].enum.map (fun p => recordIdOf "id" p.2 p.1)
    loadIndexF := builtLoadIndex stA 10000 none
    loadRecordF := builtLoadRecord (splitFilesWithContent [recA1, recA2] "id" 1 true) "id" }

def stU : BuildState :=
  ⟨[("id", [(vstr "u1", ["u1"]), (vstr "u2", ["u2"]), (vstr "u3", ["u3"])]),
    ("age", [(vint 30, ["u1"]), (vint 25, ["u2"]), (vint 40, ["u3"])]),
    ("status", [(vstr "active", ["u1", "u2"]), (vstr "inactive", ["u3"])])],
   [("id", ⟨3, "primitive"⟩),
    ("age", ⟨3, "primitive"⟩),
    ("status", ⟨3, "primitive"⟩)]⟩

def db3lit : DB :=
  { files := (splitFilesWithContent [recU1, recU2, recU3] "id" 1 true).map Prod.fst
    primaryEntries := [recU1, recU2, recU3].enum.map (fun p => recordIdOf "id" p.2 p.1)
    loadIndexF := builtLoadIndex stU 10000 none
    loadRecordF := builtLoadRecord (splitFilesWithContent [recU1, recU2, recU3] "id" 1 true) "id" }

/-- The record of the nested-object-in-array scenario:
`{id:"r1", tags:[{name:"a"},{name:"b"}]}`. -/
def recC6 : Value :=
  vobj [("id", vstr "r1"),
        ("tags", varr [vobj [("name", vstr "a")], vobj [("name", vstr "b")]])]

def stC6 : BuildState :=
  ⟨[("id", [(vstr "r1", ["r1"])]),
    ("tags", []),
    ("tags[].name", [(vstr "a", ["r1"]), (vstr "b", ["r1"])])],
   [("id", ⟨1, "primitive"⟩),
    ("tags", ⟨1, "array"⟩),
    ("tags[].name", ⟨2, "primitive"⟩)]⟩

/-- The record `{a:null, b:1}` and its walk state. -/
def recC5 : Value := vobj [("a", vnull), ("b", vint 1)]

def stC5 : BuildState := ⟨[("a", [(vnull, ["r1"])])], [("a", ⟨1, "primitive"⟩)]⟩

/-- The ten members of the `QueryOperator` string enum. -/
def queryOperators : List String :=
  ["EQUALS", "NOT_EQUALS", "GREATER_THAN", "LESS_THAN", "GREATER_THAN_OR_EQUAL",
   "LESS_THAN_OR_EQUAL", "IN", "CONTAINS", "STARTS_WITH", "ENDS_WITH"]

/-- The fully-filtered, sorted list an `executeQuery` call paginates. -/
def sortedFiltered (db : DB) (filters : List QueryFilter) (opts : QueryOptions) :
    List Value :=
  let loaded := loadAndRevalidate db filters (queryCandidates db filters)
  if opts.sort.isEmpty then loaded else applySorting loaded opts.sort

/-! ## Observations of the index walk (claim C4) -/

/-- The walk recorded value `v` for record `rid` at path `p`. -/
def hasObs (st : BuildState) (p : String) (v : Value) (rid : String) : Prop :=
  ∃ vm ids, List.lookup p st.fieldStats = some vm ∧ vmFind vm v = some ids ∧ rid ∈ ids

/-! ## Basic lemmas about the Set model and the engine's id pipelines -/

theorem mem_setAdd {l : List String} {a b : String} :
    a ∈ setAdd l b ↔ a ∈ l ∨ a = b := by
  unfold setAdd
  split
  · constructor
    · exact fun h => Or.inl h
    · rintro (h | rfl)
      · exact h
      · assumption
  · simp

theorem nodup_setAdd {l : List String} (h : l.Nodup) (b : String) :
    (setAdd l b).Nodup := by
  unfold setAdd
  split
  · exact h
  · simpa [List.nodup_append] using ⟨h, by assumption⟩

theorem mem_setAddAll {l ids : List String} {a : String} :
    a ∈ setAddAll l ids ↔ a ∈ l ∨ a ∈ ids := by
  induction ids generalizing l with
  | nil => simp [setAddAll]
  | cons x xs ih =>
    show a ∈ setAddAll (setAdd l x) xs ↔ _
    rw [ih, mem_setAdd]
    simp only [List.mem_cons]
    tauto

theorem nodup_setAddAll {l ids : List String} (h : l.Nodup) :
    (setAddAll l ids).Nodup := by
  induction ids generalizing l with
  | nil => exact h
  | cons x xs ih => exact ih (nodup_setAdd h x)

theorem mem_getAllRecordIds {db : DB} {a : String} :
    a ∈ getAllRecordIds db ↔ a ∈ db.primaryEntries := by
  show a ∈ setAddAll [] db.primaryEntries ↔ _
  rw [mem_setAddAll]
  simp

theorem nodup_getAllRecordIds (db : DB) : (getAllRecordIds db).Nodup :=
  nodup_setAddAll List.nodup_nil

theorem mem_getRecordIdsFromIndex {idx : IndexData} {f : QueryFilter} {a : String} :
    a ∈ getRecordIdsFromIndex idx f ↔
      ∃ e ∈ idx.entries, indexEntryMatches f e.value ∧ a ∈ e.recordIds := by
  unfold getRecordIdsFromIndex
  suffices h : ∀ (l : List IndexEntry) (acc : List String),
      a ∈ l.foldl (fun acc e =>
        if indexEntryMatches f e.value then setAddAll acc e.recordIds else acc) acc ↔
      a ∈ acc ∨ ∃ e ∈ l, indexEntryMatches f e.value ∧ a ∈ e.recordIds by
    rw [h]; simp
  intro l
  induction l with
  | nil => simp
  | cons e es ih =>
    intro acc
    simp only [List.foldl_cons, ih]
    by_cases hm : indexEntryMatches f e.value
    · simp only [hm, if_pos, mem_setAddAll, List.mem_cons]
      constructor
      · rintro ((h | h) | h)
        · exact Or.inl h
        · exact Or.inr ⟨e, Or.inl rfl, hm, h⟩
        · rcases h with ⟨e', he', hme', ha'⟩
          exact Or.inr ⟨e', Or.inr he', hme', ha'⟩
      · rintro (h | ⟨e', he', hme', ha'⟩)
        · exact Or.inl (Or.inl h)
        · rcases he' with rfl | he'
          · exact Or.inl (Or.inr ha')
          · exact Or.inr ⟨e', he', hme', ha'⟩
    · simp only [hm, Bool.false_eq_true, if_neg, not_false_iff, List.mem_cons]
      constructor
      · rintro (h | ⟨e', he', hme', ha'⟩)
        · exact Or.inl h
        · exact Or.inr ⟨e', Or.inr he', hme', ha'⟩
      · rintro (h | ⟨e', he', hme', ha'⟩)
        · exact Or.inl h
        · rcases he' with rfl | he'
          · exact absurd hme' hm
          · exact Or.inr ⟨e', he', hme', ha'⟩

theorem nodup_getRecordIdsFromIndex (idx : IndexData) (f : QueryFilter) :
    (getRecordIdsFromIndex idx f).Nodup := by
  unfold getRecordIdsFromIndex
  suffices h : ∀ (l : List IndexEntry) (acc : List String), acc.Nodup →
      (l.foldl (fun acc e =>
        if indexEntryMatches f e.value then setAddAll acc e.recordIds else acc) acc).Nodup by
    exact h _ _ List.nodup_nil
  intro l
  induction l with
  | nil => exact fun acc h => h
  | cons e es ih =>
    intro acc hacc
    simp only [List.foldl_cons]
    split
    · exact ih _ (nodup_setAddAll hacc)
    · exact ih _ hacc

theorem mem_scanRecordsForFilter {db : DB} {f : QueryFilter} {a : String} :
    a ∈ scanRecordsForFilter db f ↔ a ∈ getAllRecordIds db ∧ scanKeeps db f a := by
  unfold scanRecordsForFilter
  suffices h : ∀ (l : List String) (acc : List String),
      a ∈ l.foldl (fun acc id =>
        match loadRecord db id with
        | some r => if recordMatchesFilter r f then setAdd acc id else acc
        | none => acc) acc ↔
      a ∈ acc ∨ (a ∈ l ∧ scanKeeps db f a) by
    rw [h]; simp
  intro l
  induction l with
  | nil => simp
  | cons x xs ih =>
    intro acc
    simp only [List.foldl_cons, ih]
    rcases hx : loadRecord db x with _ | r
    · constructor
      · rintro (h | h)
        · exact Or.inl h
        · exact Or.inr ⟨List.mem_cons_of_mem _ h.1, h.2⟩
      · rintro (h | ⟨hm, hk⟩)
        · exact Or.inl h
        · rcases List.mem_cons.mp hm with rfl | hm'
          · simp [scanKeeps, hx] at hk
          · exact Or.inr ⟨hm', hk⟩
    · by_cases hr : recordMatchesFilter r f
      · simp only [hr, if_pos, mem_setAdd]
        constructor
        · rintro ((h | rfl) | h)
          · exact Or.inl h
          · exact Or.inr ⟨List.mem_cons_self _ _, by simp [scanKeeps, hx, hr]⟩
          · exact Or.inr ⟨List.mem_cons_of_mem _ h.1, h.2⟩
        · rintro (h | ⟨hm, hk⟩)
          · exact Or.inl (Or.inl h)
          · rcases List.mem_cons.mp hm with rfl | hm'
            · exact Or.inl (Or.inr rfl)
            · exact Or.inr ⟨hm', hk⟩
      · simp only [hr, if_neg, Bool.false_eq_true, not_false_iff]
        constructor
        · rintro (h | h)
          · exact Or.inl h
          · exact Or.inr ⟨List.mem_cons_of_mem _ h.1, h.2⟩
        · rintro (h | ⟨hm, hk⟩)
          · exact Or.inl h
          · rcases List.mem_cons.mp hm with rfl | hm'
            · simp [scanKeeps, hx, hr] at hk
            · exact Or.inr ⟨hm', hk⟩

theorem nodup_scanRecordsForFilter (db : DB) (f : QueryFilter) :
    (scanRecordsForFilter db f).Nodup := by
  unfold scanRecordsForFilter
  suffices h : ∀ (l : List String) (acc : List String), acc.Nodup →
      (l.foldl (fun acc id =>
        match loadRecord db id with
        | some r => if recordMatchesFilter r f then setAdd acc id else acc
        | none => acc) acc).Nodup by
    exact h _ _ List.nodup_nil
  intro l
  induction l with
  | nil => exact fun acc h => h
  | cons x xs ih =>
    intro acc hacc
    simp only [List.foldl_cons]
    rcases hx : loadRecord db x with _ | r
    · simp only [hx]
      exact ih _ hacc
    · simp only [hx]
      split
      · exact ih _ (nodup_setAdd hacc x)
      · exact ih _ hacc

theorem nodup_getRecordIdsForFilter (db : DB) (f : QueryFilter) :
    (getRecordIdsForFilter db f).Nodup := by
  unfold getRecordIdsForFilter
  split
  · exact nodup_getRecordIdsFromIndex _ _
  · exact nodup_scanRecordsForFilter _ _

theorem nodup_candLoop {db : DB} {cur : List String} (h : cur.Nodup) :
    ∀ fs : List QueryFilter, (candLoop db cur fs).Nodup := by
  intro fs
  induction fs generalizing cur with
  | nil => exact h
  | cons f fs ih =>
    show (candLoop db cur (f :: fs)).Nodup
    by_cases hE : (cur.filter (fun id => id ∈ getRecordIdsForFilter db f)).isEmpty
    · simp only [candLoop, hE, if_pos]
      exact List.Nodup.filter _ h
    · simp only [candLoop, hE, Bool.false_eq_true, if_neg, not_false_iff]
      exact ih (List.Nodup.filter _ h)

theorem nodup_queryCandidates (db : DB) (filters : List QueryFilter) :
    (queryCandidates db filters).Nodup := by
  unfold queryCandidates
  split
  · exact nodup_getAllRecordIds db
  · exact nodup_candLoop (nodup_getRecordIdsForFilter _ _) _

/-- What the revalidating loader keeps for one id. -/
theorem loadAndRevalidate_fun_eq_some {db : DB} {filters : List QueryFilter}
    {id : String} {r : Value} :
    (match loadRecord db id with
      | some r => if recordMatchesFilters r filters then some r else none
      | none => none) = some r ↔
    loadRecord db id = some r ∧ recordMatchesFilters r filters := by
  rcases h : loadRecord db id with _ | r'
  · simp
  · by_cases hm : recordMatchesFilters r' filters
    · simp only [hm, if_pos]
      constructor
      · rintro h'
        cases h'
        exact ⟨rfl, hm⟩
      · rintro ⟨h', _⟩
        cases h'
        rfl
    · simp only [hm, if_neg, Bool.false_eq_true, not_false_iff]
      constructor
      · rintro h'
        cases h'
      · rintro ⟨h', hm'⟩
        cases h'
        exact absurd hm' hm

theorem mem_loadAndRevalidate {db : DB} {filters : List QueryFilter}
    {cands : List String} {r : Value} :
    r ∈ loadAndRevalidate db filters cands ↔
      ∃ id ∈ cands, loadRecord db id = some r ∧ recordMatchesFilters r filters := by
  unfold loadAndRevalidate
  rw [List.mem_filterMap]
  constructor
  · rintro ⟨id, hid, hf⟩
    exact ⟨id, hid, loadAndRevalidate_fun_eq_some.mp hf⟩
  · rintro ⟨id, hid, hf⟩
    exact ⟨id, hid, loadAndRevalidate_fun_eq_some.mpr hf⟩

theorem nodup_loadAndRevalidate {db : DB} {filters : List QueryFilter}
    {cands : List String} (hc : cands.Nodup)
    (hinj : ∀ a b r, loadRecord db a = some r → loadRecord db b = some r → a = b) :
    (loadAndRevalidate db filters cands).Nodup := by
  refine List.Nodup.filterMap ?_ hc
  intro a a' b hb hb'
  have h1 := loadAndRevalidate_fun_eq_some.mp hb
  have h2 := loadAndRevalidate_fun_eq_some.mp hb'
  exact hinj a a' b h1.1 h2.1

theorem recordMatchesFilters_single (r : Value) (f : QueryFilter) :
    recordMatchesFilters r [f] = recordMatchesFilter r f := by
  simp [recordMatchesFilters]

/-- With default options the result has no sorting and no pagination
applied. -/
theorem executeQuery_default_records (db : DB) (filters : List QueryFilter) :
    (executeQuery db filters {}).records =
      loadAndRevalidate db filters (queryCandidates db filters) := by
  simp [executeQuery, limitTruthy]

theorem executeQuery_totalCount (db : DB) (filters : List QueryFilter)
    (opts : QueryOptions) :
    (executeQuery db filters opts).totalCount =
      (loadAndRevalidate db filters (queryCandidates db filters)).length := rfl

theorem queryCandidates_single (db : DB) (f : QueryFilter) :
    queryCandidates db [f] = getRecordIdsForFilter db f := rfl

theorem candLoop_single (db : DB) (cur : List String) (f : QueryFilter) :
    candLoop db cur [f] = cur.filter (fun id => id ∈ getRecordIdsForFilter db f) := by
  by_cases hE : (cur.filter (fun id => id ∈ getRecordIdsForFilter db f)).isEmpty
  · simp only [candLoop, hE, if_pos]
  · simp only [candLoop, hE, Bool.false_eq_true, if_neg, not_false_iff]

theorem queryCandidates_pair (db : DB) (p1 p2 : QueryFilter) :
    queryCandidates db [p1, p2] =
      (getRecordIdsForFilter db p1).filter
        (fun id => id ∈ getRecordIdsForFilter db p2) := by
  show candLoop db (getRecordIdsForFilter db p1) [p2] = _
  exact candLoop_single db _ p2

/-! ## Well-formedness of built databases -/

theorem buildDB_files (records : List Value) (pk : String) (bs : Nat) (sub : Bool)
    (mv : Nat) (al : Option (List String)) :
    (buildDB records pk bs sub mv al).files =
      (splitFilesWithContent records pk bs sub).map Prod.fst := rfl

theorem buildDB_primaryEntries (records : List Value) (pk : String) (bs : Nat)
    (sub : Bool) (mv : Nat) (al : Option (List String)) :
    (buildDB records pk bs sub mv al).primaryEntries =
      records.enum.map (fun p => recordIdOf pk p.2 p.1) := rfl

theorem chunkListF_sub : ∀ (fuel n : Nat) (l c : List α), c ∈ chunkListF fuel n l → c ⊆ l := by
  intro fuel
  induction fuel with
  | zero => intro n l c h; cases h
  | succ fuel ih =>
    intro n l c h
    cases l with
    | nil => cases h
    | cons x rest =>
      rcases List.mem_cons.mp h with rfl | h'
      · exact (List.take_sublist _ _).subset
      · exact fun y hy => (List.drop_sublist _ _).subset (ih _ _ _ h' hy)

theorem chunkList_sub {n : Nat} {l c : List α} (h : c ∈ chunkList n l) : c ⊆ l :=
  chunkListF_sub _ _ _ _ h

theorem splitFilesWithContent_content {records : List Value} {pk : String} {bs : Nat}
    {sub : Bool} {p : FileMeta × List Value}
    (h : p ∈ splitFilesWithContent records pk bs sub) : ∀ r ∈ p.2, r ∈ records := by
  unfold splitFilesWithContent at h
  split at h
  · rcases List.mem_map.mp h with ⟨q, hq, rfl⟩
    have hc : q.2 ∈ chunkList bs records := by
      rcases q with ⟨i, c⟩
      have := (List.mk_mem_enum_iff_get?.mp hq)
      exact List.mem_iff_get?.mpr ⟨i, this⟩
    exact fun r hr => chunkList_sub hc hr
  · rcases List.mem_map.mp h with ⟨q, hq, rfl⟩
    have hm : q.2 ∈ records := by
      rcases q with ⟨i, r0⟩
      exact List.mem_iff_get?.mpr ⟨i, List.mk_mem_enum_iff_get?.mp hq⟩
    intro r hr
    rcases List.mem_singleton.mp hr with rfl
    exact hm

/-- Every record a built database can load carries its own id: the shard
lookup matched `record[primaryKeyField]` against the requested id. -/
theorem buildDB_load_spec {records : List Value} {pk : String} {bs : Nat} {sub : Bool}
    {mv : Nat} {al : Option (List String)} {a : String} {r : Value}
    (h : loadRecord (buildDB records pk bs sub mv al) a = some r) :
    pkRawId pk r = a ∧ r ∈ records := by
  unfold loadRecord at h
  rcases hf : List.find? (fun fm => a ∈ fm.recordIds)
      (buildDB records pk bs sub mv al).files with _ | fm
  · rw [hf] at h
    exact Option.noConfusion h
  · rw [hf] at h
    have h2 : (match builtLoadRecord (splitFilesWithContent records pk bs sub) pk a fm with
        | Except.error _ => none
        | Except.ok r => r) = some r := h
    unfold builtLoadRecord at h2
    rcases hp : List.find? (fun q => q.1.filename = fm.filename)
        (splitFilesWithContent records pk bs sub) with _ | p
    · rw [hp] at h2
      exact Option.noConfusion h2
    · rw [hp] at h2
      have h3 : p.2.find? (fun q => pkRawId pk q = a) = some r := h2
      have h4 := List.find?_some h3
      refine ⟨of_decide_eq_true h4, ?_⟩
      exact splitFilesWithContent_content (List.mem_of_find?_eq_some hp) r
        (List.mem_of_find?_eq_some h3)

/-- Distinct ids of a built database load distinct records. -/
theorem buildDB_load_inj (records : List Value) (pk : String) (bs : Nat) (sub : Bool)
    (mv : Nat) (al : Option (List String)) :
    ∀ a b r, loadRecord (buildDB records pk bs sub mv al) a = some r →
      loadRecord (buildDB records pk bs sub mv al) b = some r → a = b := by
  intro a b r ha hb
  have h1 := (buildDB_load_spec ha).1
  have h2 := (buildDB_load_spec hb).1
  rw [← h1, ← h2]

/-- When every record's primary key is a nonempty string, every loadable
id of a built database appears in its primary index. -/
theorem buildDB_load_mem_allIds {records : List Value} {pk : String} {bs : Nat}
    {sub : Bool} {mv : Nat} {al : Option (List String)}
    (hpk : ∀ r ∈ records, ∃ s : String, getOwn r pk = some (vstr s) ∧ s ≠ "") :
    ∀ a r, loadRecord (buildDB records pk bs sub mv al) a = some r →
      a ∈ getAllRecordIds (buildDB records pk bs sub mv al) := by
  intro a r h
  obtain ⟨hid, hmem⟩ := buildDB_load_spec h
  obtain ⟨s, hs, hne⟩ := hpk r hmem
  have hida : s = a := by
    rw [← hid]
    simp [pkRawId, hs, valueToString]
  rw [mem_getAllRecordIds, buildDB_primaryEntries]
  obtain ⟨i, hi⟩ := List.mem_iff_get?.mp hmem
  refine List.mem_map.mpr ⟨(i, r), List.mk_mem_enum_iff_get?.mpr hi, ?_⟩
  show recordIdOf pk r i = a
  rw [← hida]
  simp [recordIdOf, hs, jsTruthy, hne, valueToString]

theorem db3_pk_strings :
    ∀ r ∈ [recU1, recU2, recU3], ∃ s : String, getOwn r "id" = some (vstr s) ∧ s ≠ "" := by
  intro r hr
  rcases List.mem_cons.mp hr with rfl | hr
  · exact ⟨"u1", rfl, by decide⟩
  rcases List.mem_cons.mp hr with rfl | hr
  · exact ⟨"u2", rfl, by decide⟩
  rcases List.mem_cons.mp hr with rfl | hr
  · exact ⟨"u3", rfl, by decide⟩
  cases hr

theorem buildStatsA : buildStats [recA1, recA2] "id" = stA := by
  simp only [buildStats, analyzeRecord, analyzeFields, analyzeArrayObjects, ensureField,
    incCount, setFType, addObs, emptyBuildState, alModify, addToIndex, vmFind, vmSet,
    setAdd, veq, isPrimitive, recA1, recA2, recordIdOf, getOwn, jsTruthy, mkFieldPath,
    List.enum, List.enumFrom, List.foldl_cons, List.foldl_nil, List.lookup]
  rfl

theorem dbA_eq : dbA = dbAlit := by
  simp only [dbA, buildDB, dbAlit, buildStatsA]

theorem dbAnoIndex_eq : dbAnoIndex =
    { dbAlit with loadIndexF := fun f => if f = "a" then none else dbAlit.loadIndexF f } := by
  simp only [dbAnoIndex, dbA_eq]

theorem buildStatsU : buildStats [recU1, recU2, recU3] "id" = stU := by
  simp only [buildStats, analyzeRecord, analyzeFields, analyzeArrayObjects, ensureField,
    incCount, setFType, addObs, emptyBuildState, alModify, addToIndex, vmFind, vmSet,
    setAdd, veq, isPrimitive, recU1, recU2, recU3, recordIdOf, getOwn, jsTruthy,
    mkFieldPath, List.enum, List.enumFrom, List.foldl_cons, List.foldl_nil, List.lookup]
  rfl

theorem db3_eq : db3 = db3lit := by
  simp only [db3, buildDB, db3lit, buildStatsU]

theorem buildStatsC6 : buildStats [recC6] "id" = stC6 := by
  simp only [buildStats, analyzeRecord, analyzeFields, analyzeArrayObjects, ensureField,
    incCount, setFType, addObs, emptyBuildState, alModify, addToIndex, vmFind, vmSet,
    setAdd, veq, isPrimitive, recC6, recordIdOf, getOwn, jsTruthy, mkFieldPath,
    List.enum, List.enumFrom, List.foldl_cons, List.foldl_nil, List.lookup]
  rfl

theorem analyzeRecordC5 : analyzeRecord emptyBuildState recC5 "r1" "" = stC5 := by
  simp only [analyzeRecord, analyzeFields, ensureField, incCount, setFType, addObs,
    emptyBuildState, alModify, addToIndex, vmFind, vmSet, setAdd, veq, isPrimitive,
    recC5, mkFieldPath, List.lookup]
  rfl

/-! ## Claim theorems -/

/-- C5: on the record `{a:null, b:1}` the walk records the null
observation at "a" but then aborts: field "b" is never visited — neither
its statistics nor its metadata exist, contradicting the claim that the
walk still processes all remaining fields (the `return` in the null
branch of `analyzeRecord` exits the whole field loop). -/
theorem analyzeRecord_null_aborts_walk :
    List.lookup "a" (analyzeRecord emptyBuildState recC5 "r1" "").fieldStats
        = some [(vnull, ["r1"])]
    ∧ List.lookup "b" (analyzeRecord emptyBuildState recC5 "r1" "").fieldStats = none
    ∧ List.lookup "b" (analyzeRecord emptyBuildState recC5 "r1" "").fieldMetadata = none := by
  rw [analyzeRecordC5]
  exact ⟨rfl, rfl, rfl⟩

/-- C6: on the single record `{id:"r1", tags:[{name:"a"},{name:"b"}]}`
the coverage written for path "tags[].name" is 2 — the per-visit counter
is incremented once per array element — although only 1 of the 1 records
was observed at that path; so coverage is not (records observed)/(total
records) and exceeds 1. -/
theorem coverage_not_record_fraction :
    fieldCoverage (buildStats [recC6] "id") "tags[].name" 1 = 2
    ∧ recordsObservedAt (buildStats [recC6] "id") "tags[].name" = 1 := by
  rw [buildStatsC6]
  constructor
  · have h : ((List.lookup "tags[].name" stC6.fieldMetadata).map FieldMeta.count).getD 0
        = 2 := rfl
    unfold fieldCoverage
    rw [h]
    norm_num
  · rfl

/-- C4 (counterexample): the walk of `{id:"r1", tags:[{name: ...}]}`
discovers the nested field under "tags[].name" — the recursion prefix is
the array field's path suffixed with "[]" — and no statistics exist at
the claimed path "tags.name". -/
theorem array_object_walk_not_plain_path :
    List.lookup "tags.name" (buildStats [recC6] "id").fieldStats = none
    ∧ List.lookup "tags[].name" (buildStats [recC6] "id").fieldStats
        = some [(vstr "a", ["r1"]), (vstr "b", ["r1"])] := by
  rw [buildStatsC6]
  exact ⟨rfl, rfl⟩

/-- C1 (counterexample): on the built two-record database where record
"2" lacks field "a", the single predicate `a NOT_EQUALS 7` returns one
record through the index path but two through the full scan (the scan
matches `undefined !== 7` for record "2", which no index entry ever
surfaces), so removing the index changes the query result. -/
theorem index_removal_changes_query_results :
    (executeQuery dbA [⟨"a", "NOT_EQUALS", vint 7⟩] {}).records = [recA1]
    ∧ (executeQuery dbAnoIndex [⟨"a", "NOT_EQUALS", vint 7⟩] {}).records = [recA1, recA2]
    ∧ (executeQuery dbA [⟨"a", "NOT_EQUALS", vint 7⟩] {}).totalCount = 1
    ∧ (executeQuery dbAnoIndex [⟨"a", "NOT_EQUALS", vint 7⟩] {}).totalCount = 2 := by
  rw [dbA_eq, dbAnoIndex_eq]
  exact ⟨rfl, rfl, rfl, rfl⟩

/-- C7 (counterexample): with `limit = 0` — a set limit — on a
three-record database, the claimed semantics would return a page of 0
records and `hasMore = (0 + 0 < 3) = true`; the code treats the falsy
limit as unset and returns all 3 records with `hasMore = false`. -/
theorem executeQuery_limit_zero_returns_all :
    (executeQuery db3 [] ⟨some 0, none, []⟩).records.length = 3
    ∧ (executeQuery db3 [] ⟨some 0, none, []⟩).hasMore = false
    ∧ (executeQuery db3 [] ⟨some 0, none, []⟩).totalCount = 3 := by
  rw [db3_eq]
  exact ⟨rfl, rfl, rfl⟩

/-- C8: `getRecord(id)` resolves to null — not an error — whenever the id
has no entry in the shard manifest, or its shard loader throws, or the
shard does not produce the record. -/
theorem getRecord_none_on_missing_or_unreadable (db : DB) (id : String)
    (h : ∀ fm, db.files.find? (fun fm => id ∈ fm.recordIds) = some fm →
      ∀ r : Value, db.loadRecordF id fm ≠ .ok (some r)) :
    getRecord db id = none := by
  unfold getRecord loadRecord
  rcases hf : db.files.find? (fun fm => id ∈ fm.recordIds) with _ | fm
  · rw [hf]
  · rw [hf]
    show (match db.loadRecordF id fm with
      | Except.error _ => none
      | Except.ok r => r) = none
    rcases hl : db.loadRecordF id fm with e | r
    · simp only [hl]
    · cases r with
      | none => simp only [hl]
      | some rec => exact absurd hl (h fm hf rec)

/-- C8 witness: `getRecord("missing")` on the built three-record
database is null. -/
theorem getRecord_none_on_missing_or_unreadable_witness :
    getRecord db3 "missing" = none := by
  apply getRecord_none_on_missing_or_unreadable
  intro fm hfm r
  rw [db3_eq] at hfm
  have hnone : List.find? (fun fm => "missing" ∈ fm.recordIds) db3lit.files = none := rfl
  rw [hnone] at hfm
  cases hfm

theorem recordMatchesFilter_unknown {f : QueryFilter} (h : f.operator ∉ queryOperators)
    (r : Value) : recordMatchesFilter r f = false := by
  have h1 : f.operator ≠ "EQUALS" := fun e => h (by simp [queryOperators, e])
  have h2 : f.operator ≠ "NOT_EQUALS" := fun e => h (by simp [queryOperators, e])
  have h3 : f.operator ≠ "GREATER_THAN" := fun e => h (by simp [queryOperators, e])
  have h4 : f.operator ≠ "LESS_THAN" := fun e => h (by simp [queryOperators, e])
  have h5 : f.operator ≠ "GREATER_THAN_OR_EQUAL" := fun e => h (by simp [queryOperators, e])
  have h6 : f.operator ≠ "LESS_THAN_OR_EQUAL" := fun e => h (by simp [queryOperators, e])
  have h7 : f.operator ≠ "IN" := fun e => h (by simp [queryOperators, e])
  have h8 : f.operator ≠ "CONTAINS" := fun e => h (by simp [queryOperators, e])
  have h9 : f.operator ≠ "STARTS_WITH" := fun e => h (by simp [queryOperators, e])
  have h10 : f.operator ≠ "ENDS_WITH" := fun e => h (by simp [queryOperators, e])
  unfold recordMatchesFilter
  rw [if_neg h1, if_neg h2, if_neg h3, if_neg h4, if_neg h5, if_neg h6, if_neg h7,
    if_neg h8, if_neg h9, if_neg h10]

theorem indexEntryMatches_unknown {f : QueryFilter} (h : f.operator ∉ queryOperators)
    (v : Value) : indexEntryMatches f v = false := by
  have h1 : f.operator ≠ "EQUALS" := fun e => h (by simp [queryOperators, e])
  have h2 : f.operator ≠ "NOT_EQUALS" := fun e => h (by simp [queryOperators, e])
  have h3 : f.operator ≠ "GREATER_THAN" := fun e => h (by simp [queryOperators, e])
  have h4 : f.operator ≠ "LESS_THAN" := fun e => h (by simp [queryOperators, e])
  have h5 : f.operator ≠ "GREATER_THAN_OR_EQUAL" := fun e => h (by simp [queryOperators, e])
  have h6 : f.operator ≠ "LESS_THAN_OR_EQUAL" := fun e => h (by simp [queryOperators, e])
  have h7 : f.operator ≠ "IN" := fun e => h (by simp [queryOperators, e])
  have h8 : f.operator ≠ "CONTAINS" := fun e => h (by simp [queryOperators, e])
  have h9 : f.operator ≠ "STARTS_WITH" := fun e => h (by simp [queryOperators, e])
  have h10 : f.operator ≠ "ENDS_WITH" := fun e => h (by simp [queryOperators, e])
  unfold indexEntryMatches
  rw [if_neg h1, if_neg h2, if_neg h3, if_neg h4, if_neg h5, if_neg h6, if_neg h7,
    if_neg h8, if_neg h9, if_neg h10]

theorem getRecordIdsForFilter_unknown {db : DB} {f : QueryFilter}
    (h : f.operator ∉ queryOperators) : getRecordIdsForFilter db f = [] := by
  unfold getRecordIdsForFilter
  rcases hi : db.loadIndexF f.field with _ | idx
  · refine List.eq_nil_iff_forall_not_mem.mpr (fun a ha => ?_)
    obtain ⟨_, hk⟩ := mem_scanRecordsForFilter.mp ha
    unfold scanKeeps at hk
    rcases hx : loadRecord db a with _ | r
    · rw [hx] at hk
      cases hk
    · rw [hx] at hk
      have hk' : recordMatchesFilter r f = true := hk
      rw [recordMatchesFilter_unknown h r] at hk'
      cases hk'
  · refine List.eq_nil_iff_forall_not_mem.mpr (fun a ha => ?_)
    obtain ⟨e, _, hme, _⟩ := mem_getRecordIdsFromIndex.mp ha
    rw [indexEntryMatches_unknown h] at hme
    cases hme

/-- C9: a filter whose operator is not one of the ten `QueryOperator`
members matches no record — `recordMatchesFilter` returns false through
the switch's default branch and the index matcher leaves `matches` false
for every entry — so `executeQuery` with such a filter returns an empty
result instead of throwing. -/
theorem unknown_operator_yields_empty (db : DB) (f : QueryFilter)
    (h : f.operator ∉ queryOperators) :
    (executeQuery db [f] {}).records = [] ∧ (executeQuery db [f] {}).totalCount = 0
    ∧ ∀ r, recordMatchesFilter r f = false := by
  have hcand : queryCandidates db [f] = [] := by
    rw [queryCandidates_single, getRecordIdsForFilter_unknown h]
  refine ⟨?_, ?_, recordMatchesFilter_unknown h⟩
  · rw [executeQuery_default_records, hcand]
    rfl
  · rw [executeQuery_totalCount, hcand]
    rfl

/-- C9 witness: the unknown operator "FOO" on the three-record database. -/
theorem unknown_operator_yields_empty_witness :
    (executeQuery db3 [⟨"status", "FOO", vnull⟩] {}).records = []
    ∧ (executeQuery db3 [⟨"status", "FOO", vnull⟩] {}).totalCount = 0
    ∧ ∀ r, recordMatchesFilter r ⟨"status", "FOO", vnull⟩ = false :=
  unknown_operator_yields_empty db3 ⟨"status", "FOO", vnull⟩ (by decide)

theorem executeQuery_records_eq (db : DB) (filters : List QueryFilter)
    (opts : QueryOptions) :
    (executeQuery db filters opts).records =
      ((sortedFiltered db filters opts).drop (opts.offset.getD 0)).take
        (if limitTruthy opts.limit then opts.limit.getD 0
         else ((sortedFiltered db filters opts).drop (opts.offset.getD 0)).length) := by
  unfold executeQuery sortedFiltered
  by_cases hlim : limitTruthy opts.limit
  · simp [hlim]
  · simp [hlim, List.take_length]

theorem nodup_sortedFiltered (db : DB) (filters : List QueryFilter) (opts : QueryOptions)
    (hinj : ∀ a b r, loadRecord db a = some r → loadRecord db b = some r → a = b) :
    (sortedFiltered db filters opts).Nodup := by
  have hl : (loadAndRevalidate db filters (queryCandidates db filters)).Nodup :=
    nodup_loadAndRevalidate (nodup_queryCandidates db filters) hinj
  unfold sortedFiltered
  split
  · exact hl
  · exact (List.perm_insertionSort _ _).symm.nodup hl

/-- C10: every query result contains each record at most once — candidate
ids are a Set, each id loads at most one record, and distinct ids load
distinct records in any database whose loadable records determine their
id (true of every built database); sorting permutes and pagination takes
a sublist, so the final record list has no duplicates. -/
theorem executeQuery_records_nodup (db : DB) (filters : List QueryFilter)
    (opts : QueryOptions)
    (hinj : ∀ a b r, loadRecord db a = some r → loadRecord db b = some r → a = b) :
    (executeQuery db filters opts).records.Nodup := by
  rw [executeQuery_records_eq]
  exact (List.take_sublist _ _).nodup
    ((List.drop_sublist _ _).nodup (nodup_sortedFiltered db filters opts hinj))

/-- C10 witness: a query on the built three-record database. -/
theorem executeQuery_records_nodup_witness :
    (executeQuery db3 [⟨"status", "EQUALS", vstr "active"⟩]
      ⟨some 10, some 0, [⟨"age", "desc"⟩]⟩).records.Nodup :=
  executeQuery_records_nodup db3 _ _
    (fun a b r ha hb => buildDB_load_inj [recU1, recU2, recU3] "id" 1 true 10000 none a b r ha hb)

/-- C7 (amended): `executeQuery` computes `totalCount` from the filtered
pre-pagination list; its page is the sorted filtered list with `offset`
dropped and, when `limit` is set and nonzero, `limit` taken; `hasMore`
is true exactly when a nonzero limit is set and `offset + limit <
totalCount`; when no limit is given — or `limit` is 0, which the code's
truthiness test treats as unset — `hasMore` is false and all records
from `offset` onward are returned. -/
theorem executeQuery_pagination_semantics (db : DB) (filters : List QueryFilter)
    (opts : QueryOptions) :
    (executeQuery db filters opts).totalCount
        = (loadAndRevalidate db filters (queryCandidates db filters)).length
    ∧ (executeQuery db filters opts).records
        = ((sortedFiltered db filters opts).drop (opts.offset.getD 0)).take
            (if limitTruthy opts.limit then opts.limit.getD 0
             else ((sortedFiltered db filters opts).drop (opts.offset.getD 0)).length)
    ∧ ((executeQuery db filters opts).hasMore = true ↔
        ∃ l, opts.limit = some l ∧ l ≠ 0
          ∧ opts.offset.getD 0 + l < (executeQuery db filters opts).totalCount)
    ∧ (limitTruthy opts.limit = false →
        (executeQuery db filters opts).hasMore = false
        ∧ (executeQuery db filters opts).records
            = (sortedFiltered db filters opts).drop (opts.offset.getD 0)) := by
  refine ⟨executeQuery_totalCount db filters opts, executeQuery_records_eq db filters opts,
    ?_, ?_⟩
  · show (if limitTruthy opts.limit
        then decide (opts.offset.getD 0 + opts.limit.getD 0
          < (loadAndRevalidate db filters (queryCandidates db filters)).length)
        else false) = true ↔ _
    rcases hlim : opts.limit with _ | l
    · simp [limitTruthy]
    · by_cases hz : l = 0
      · subst hz
        simp [limitTruthy]
      · simp only [limitTruthy, hz, bne_iff_ne, ne_eq, not_false_iff, if_pos,
          decide_eq_true_eq, executeQuery_totalCount]
        constructor
        · intro hlt
          exact ⟨l, rfl, hz, by simpa using hlt⟩
        · rintro ⟨l', hl', hne, hlt⟩
          cases hl'
          simpa using hlt
  · intro hlim
    constructor
    · show (if limitTruthy opts.limit then _ else false) = false
      rw [hlim]
      rfl
    · rw [executeQuery_records_eq, hlim]
      simp [List.take_length]

theorem recordMatchesFilters_pair (r : Value) (p1 p2 : QueryFilter) :
    recordMatchesFilters r [p1, p2]
      = (recordMatchesFilter r p1 && recordMatchesFilter r p2) := by
  simp [recordMatchesFilters]

/-- C3: ignoring pagination, a two-predicate query returns exactly the
set intersection of the two single-predicate queries, in any database
whose loadable records determine their id (true of every built
database). -/
theorem executeQuery_pair_intersection (db : DB) (p1 p2 : QueryFilter)
    (hinj : ∀ a b r, loadRecord db a = some r → loadRecord db b = some r → a = b)
    (r : Value) :
    r ∈ (executeQuery db [p1, p2] {}).records ↔
      (r ∈ (executeQuery db [p1] {}).records ∧ r ∈ (executeQuery db [p2] {}).records) := by
  constructor
  · intro hr
    rw [executeQuery_default_records] at hr
    obtain ⟨id, hid, hload, hmatch⟩ := mem_loadAndRevalidate.mp hr
    rw [queryCandidates_pair] at hid
    obtain ⟨hid1, hid2⟩ := List.mem_filter.mp hid
    have hid2' : id ∈ getRecordIdsForFilter db p2 := of_decide_eq_true hid2
    have hm : (recordMatchesFilter r p1 && recordMatchesFilter r p2) = true := by
      rw [← recordMatchesFilters_pair]
      exact hmatch
    obtain ⟨hm1, hm2⟩ := Bool.and_eq_true_iff.mp hm
    constructor
    · rw [executeQuery_default_records]
      refine mem_loadAndRevalidate.mpr ⟨id, ?_, hload, ?_⟩
      · rw [queryCandidates_single]
        exact hid1
      · simp [recordMatchesFilters, hm1]
    · rw [executeQuery_default_records]
      refine mem_loadAndRevalidate.mpr ⟨id, ?_, hload, ?_⟩
      · rw [queryCandidates_single]
        exact hid2'
      · simp [recordMatchesFilters, hm2]
  · rintro ⟨h1, h2⟩
    rw [executeQuery_default_records] at h1 h2 ⊢
    obtain ⟨a, ha, hla, hma⟩ := mem_loadAndRevalidate.mp h1
    obtain ⟨b, hb, hlb, hmb⟩ := mem_loadAndRevalidate.mp h2
    cases hinj a b r hla hlb
    rw [queryCandidates_single] at ha hb
    have hma' : recordMatchesFilter r p1 = true := by
      have := hma
      simpa [recordMatchesFilters] using this
    have hmb' : recordMatchesFilter r p2 = true := by
      have := hmb
      simpa [recordMatchesFilters] using this
    refine mem_loadAndRevalidate.mpr ⟨a, ?_, hla, ?_⟩
    · rw [queryCandidates_pair]
      exact List.mem_filter.mpr ⟨ha, decide_eq_true hb⟩
    · rw [recordMatchesFilters_pair, hma', hmb']
      rfl

/-- C3 witness: on the built three-record database, record u1 is in the
conjunction query exactly when it is in both single-predicate queries. -/
theorem executeQuery_pair_intersection_witness :
    recU1 ∈ (executeQuery db3 [⟨"status", "EQUALS", vstr "active"⟩,
        ⟨"age", "GREATER_THAN", vint 26⟩] {}).records ↔
      (recU1 ∈ (executeQuery db3 [⟨"status", "EQUALS", vstr "active"⟩] {}).records
      ∧ recU1 ∈ (executeQuery db3 [⟨"age", "GREATER_THAN", vint 26⟩] {}).records) :=
  executeQuery_pair_intersection db3 _ _
    (fun a b r ha hb => buildDB_load_inj [recU1, recU2, recU3] "id" 1 true 10000 none a b r ha hb)
    recU1

/-- C1 (amended): with a single filter predicate, the records returned
through index-based resolution followed by defensive re-validation are a
SUBSET of those the full-scan path returns, in any database whose
loadable ids all appear in the primary index — a coverage property that
holds in particular for databases built from records whose primary-key
values are all nonempty strings (buildDB_load_mem_allIds): removing the
field's index can only grow the result set, and the growth is real for
predicates, such as NOT_EQUALS, that match records with no index
observation for the field. -/
theorem indexed_query_results_subset_of_scan (db : DB) (flt : QueryFilter)
    (hcov : ∀ id r, loadRecord db id = some r → id ∈ getAllRecordIds db) :
    ∀ r ∈ (executeQuery db [flt] {}).records,
      r ∈ (executeQuery
        { db with loadIndexF := fun f => if f = flt.field then none else db.loadIndexF f }
        [flt] {}).records := by
  intro r hr
  rw [executeQuery_default_records] at hr ⊢
  obtain ⟨id, _, hload, hmatch⟩ := mem_loadAndRevalidate.mp hr
  refine mem_loadAndRevalidate.mpr ⟨id, ?_, hload, hmatch⟩
  rw [queryCandidates_single]
  show id ∈ getRecordIdsForFilter
    { db with loadIndexF := fun f => if f = flt.field then none else db.loadIndexF f } flt
  unfold getRecordIdsForFilter
  simp only [if_pos rfl]
  refine mem_scanRecordsForFilter.mpr ⟨hcov id r hload, ?_⟩
  unfold scanKeeps
  rw [show loadRecord
      { db with loadIndexF := fun f => if f = flt.field then none else db.loadIndexF f } id
      = loadRecord db id from rfl]
  rw [hload]
  have hm : recordMatchesFilter r flt = true := by
    have := hmatch
    simpa [recordMatchesFilters] using this
  exact hm

/-- C1 witness: removing the status index of the built three-record
database still returns record u1 for `status EQUALS "active"`. -/
theorem indexed_query_results_subset_of_scan_witness :
    recU1 ∈ (executeQuery
      { db3 with loadIndexF := fun f => if f = "status" then none else db3.loadIndexF f }
      [⟨"status", "EQUALS", vstr "active"⟩] {}).records := by
  apply indexed_query_results_subset_of_scan db3 ⟨"status", "EQUALS", vstr "active"⟩
    (fun id r h => buildDB_load_mem_allIds db3_pk_strings id r h)
  rw [db3_eq]
  have hrec : (executeQuery db3lit [⟨"status", "EQUALS", vstr "active"⟩] {}).records
      = [recU1, recU2] := rfl
  rw [hrec]
  exact List.mem_cons_self _ _

/-- C7 witness: the pagination equations instantiated on the built
three-record database with `limit 2, offset 1`. -/
theorem executeQuery_pagination_semantics_witness :
    (executeQuery db3 [] ⟨some 2, some 1, []⟩).totalCount
        = (loadAndRevalidate db3 [] (queryCandidates db3 [])).length
    ∧ (executeQuery db3 [] ⟨some 2, some 1, []⟩).records
        = ((sortedFiltered db3 [] ⟨some 2, some 1, []⟩).drop
            ((⟨some 2, some 1, []⟩ : QueryOptions).offset.getD 0)).take
            (if limitTruthy (⟨some 2, some 1, []⟩ : QueryOptions).limit
             then (⟨some 2, some 1, []⟩ : QueryOptions).limit.getD 0
             else ((sortedFiltered db3 [] ⟨some 2, some 1, []⟩).drop
               ((⟨some 2, some 1, []⟩ : QueryOptions).offset.getD 0)).length)
    ∧ ((executeQuery db3 [] ⟨some 2, some 1, []⟩).hasMore = true ↔
        ∃ l, (⟨some 2, some 1, []⟩ : QueryOptions).limit = some l ∧ l ≠ 0
          ∧ (⟨some 2, some 1, []⟩ : QueryOptions).offset.getD 0 + l
              < (executeQuery db3 [] ⟨some 2, some 1, []⟩).totalCount)
    ∧ (limitTruthy (⟨some 2, some 1, []⟩ : QueryOptions).limit = false →
        (executeQuery db3 [] ⟨some 2, some 1, []⟩).hasMore = false
        ∧ (executeQuery db3 [] ⟨some 2, some 1, []⟩).records
            = (sortedFiltered db3 [] ⟨some 2, some 1, []⟩).drop
                ((⟨some 2, some 1, []⟩ : QueryOptions).offset.getD 0)) :=
  executeQuery_pagination_semantics db3 [] ⟨some 2, some 1, []⟩

/-! ## Primary-key validation (claim C2) -/

theorem beq_comm' [BEq α] [LawfulBEq α] (a b : α) : (a == b) = (b == a) := by
  by_cases h : a = b
  · subst h
    rfl
  · rw [beq_eq_false_iff_ne.mpr h, beq_eq_false_iff_ne.mpr (Ne.symm h)]

theorem veq_symm (a b : Value) : veq a b = veq b a := by
  cases a <;> cases b <;> simp [veq, eq_comm]

theorem oveq_symm (x y : Option Value) : oveq x y = oveq y x := by
  cases x <;> cases y <;> simp [oveq] <;> exact veq_symm ..

theorem veq_refl_prim {v : Value} (h : isPrimitive v = true) : veq v v = true := by
  cases v <;> simp_all [veq, isPrimitive]

theorem veq_eq_iff_prim {a : Value} (h : isPrimitive a = true) (b : Value) :
    veq a b = true ↔ a = b := by
  cases a <;> cases b <;> simp_all [veq, isPrimitive]

theorem oveq_eq_iff {x y : Option Value}
    (hx : ∀ v, x = some v → isPrimitive v = true) :
    oveq x y = true ↔ x = y := by
  cases x with
  | none => cases y <;> simp [oveq]
  | some a =>
    cases y with
    | none => simp [oveq]
    | some b => simp [oveq, veq_eq_iff_prim (hx a rfl)]

theorem oveq_null_iff (x : Option Value) : oveq x (some vnull) = true ↔ x = some vnull := by
  cases x with
  | none => simp [oveq]
  | some v => cases v <;> simp [oveq, veq]

/-- A run of the duplicate loop succeeds exactly when the keys are
pairwise distinct (up to SameValueZero) and none repeats a key already
seen. -/
theorem findDup_none_iff (pk : String) :
    ∀ (records : List Value) (seen : List (Option Value)),
      findDup pk seen records = none ↔
        ((records.map (fun r => getOwn r pk)).Pairwise (fun a b => oveq a b = false)
        ∧ ∀ x ∈ records.map (fun r => getOwn r pk), ∀ y ∈ seen, oveq x y = false) := by
  intro records
  induction records with
  | nil => simp [findDup]
  | cons r rest ih =>
    intro seen
    show (if seen.any (oveq (getOwn r pk)) then _ else findDup pk (getOwn r pk :: seen) rest)
        = none ↔ _
    by_cases hany : seen.any (oveq (getOwn r pk))
    · rw [if_pos hany]
      obtain ⟨y, hy, hxy⟩ := List.any_eq_true.mp hany
      simp only [List.map_cons, List.pairwise_cons, List.mem_cons]
      constructor
      · intro h
        cases h
      · rintro ⟨_, hall⟩
        have := hall (getOwn r pk) (Or.inl rfl) y hy
        rw [this] at hxy
        cases hxy
    · rw [if_neg hany, ih]
      simp only [List.map_cons, List.pairwise_cons, List.mem_cons]
      constructor
      · rintro ⟨hpw, hseen⟩
        refine ⟨⟨?_, hpw⟩, ?_⟩
        · intro b hb
          rw [oveq_symm]
          exact hseen b hb (getOwn r pk) (Or.inl rfl)
        · rintro x (rfl | hx) y hy
          · cases hxy : oveq (getOwn r pk) y
            · rfl
            · exact absurd (List.any_eq_true.mpr ⟨y, hy, hxy⟩) hany
          · exact hseen x hx y (Or.inr hy)
      · rintro ⟨⟨hhead, hpw⟩, hall⟩
        refine ⟨hpw, ?_⟩
        rintro x hx y (rfl | hy')
        · rw [oveq_symm]
          exact hhead x hx
        · exact hall x (Or.inr hx) y hy'

/-- A failing run reports a duplicate whose key occurs at least twice
among the seen keys and the walked keys (counted with SameValueZero),
provided every key is SameValueZero-reflexive (scalar or absent). -/
theorem findDup_some (pk : String) :
    ∀ (records : List Value) (seen : List (Option Value)) (e : SplitError),
      (∀ r ∈ records, oveq (getOwn r pk) (getOwn r pk) = true) →
      findDup pk seen records = some e →
      ∃ k, e = SplitError.duplicateKey k
        ∧ 2 ≤ seen.countP (fun y => oveq y k)
            + (records.map (fun r => getOwn r pk)).countP (fun y => oveq y k) := by
  intro records
  induction records with
  | nil => intro seen e _ h; cases h
  | cons r rest ih =>
    intro seen e hrefl h
    rw [show findDup pk seen (r :: rest)
        = (if seen.any (oveq (getOwn r pk)) then some (.duplicateKey (getOwn r pk))
           else findDup pk (getOwn r pk :: seen) rest) from rfl] at h
    by_cases hany : seen.any (oveq (getOwn r pk))
    · rw [if_pos hany] at h
      cases h
      refine ⟨getOwn r pk, rfl, ?_⟩
      obtain ⟨y, hy, hxy⟩ := List.any_eq_true.mp hany
      have hseen : 0 < seen.countP (fun y => oveq y (getOwn r pk)) :=
        List.countP_pos.mpr ⟨y, hy, by rw [oveq_symm] at hxy; exact hxy⟩
      have hself : 0 < ((r :: rest).map (fun r => getOwn r pk)).countP
          (fun y => oveq y (getOwn r pk)) := by
        refine List.countP_pos.mpr ⟨getOwn r pk, List.mem_cons_self _ _, ?_⟩
        exact hrefl r (List.mem_cons_self _ _)
      omega
    · rw [if_neg hany] at h
      obtain ⟨k, hk, hcount⟩ := ih (getOwn r pk :: seen) e
        (fun r' hr' => hrefl r' (List.mem_cons_of_mem _ hr')) h
      refine ⟨k, hk, ?_⟩
      rw [List.countP_cons] at hcount
      simp only [List.map_cons, List.countP_cons]
      omega

/-- Pairwise SameValueZero-distinctness bounds the count of the null key
by one. -/
theorem pairwise_null_count {l : List (Option Value)}
    (h : l.Pairwise (fun a b => oveq a b = false)) :
    l.countP (fun y => oveq y (some vnull)) ≤ 1 := by
  induction l with
  | nil => simp
  | cons a l ih =>
    rw [List.pairwise_cons] at h
    rw [List.countP_cons]
    by_cases ha : oveq a (some vnull) = true
    · have ha' : a = some vnull := (oveq_null_iff a).mp ha
      have hzero : l.countP (fun y => oveq y (some vnull)) = 0 := by
        refine List.countP_eq_zero.mpr (fun b hb hbnull => ?_)
        have hb' : b = some vnull := (oveq_null_iff b).mp hbnull
        have := h.1 b hb
        rw [ha', hb'] at this
        simp [oveq, veq] at this
      rw [hzero]
      simp [ha]
    · rw [if_neg ha]
      have := ih h.2
      omega

/-- C2: for scalar primary keys (the specification's key domain),
`validateRecords` — and hence `splitRecords` — throws exactly when a
primary-key invariant is violated: the collection is empty, a record
lacks the key as its own property, or two records share a key value,
null keys included; and when the only repeated key value is null (with
at least two occurrences), the error is a duplicate-key error citing
null. -/
theorem validateRecords_pk_invariants (records : List Value) (pk : String)
    (hscal : ∀ r ∈ records, ∀ v, getOwn r pk = some v → isPrimitive v = true) :
    ((validateRecords records pk).isSome = true ↔
      (records = [] ∨ (∃ r ∈ records, hasOwn r pk = false)
        ∨ ¬ (records.map (fun r => getOwn r pk)).Nodup))
    ∧ ((∀ r ∈ records, hasOwn r pk = true) →
        2 ≤ (records.map (fun r => getOwn r pk)).countP (fun y => oveq y (some vnull)) →
        (∀ x : Option Value, oveq x (some vnull) = false →
          (records.map (fun r => getOwn r pk)).countP (fun y => oveq y x) ≤ 1) →
        validateRecords records pk = some (.duplicateKey (some vnull))) := by
  have hrefl : ∀ r ∈ records, oveq (getOwn r pk) (getOwn r pk) = true := by
    intro r hr
    rcases hg : getOwn r pk with _ | v
    · rfl
    · simpa [oveq] using veq_refl_prim (hscal r hr v hg)
  have hbridge : (records.map (fun r => getOwn r pk)).Pairwise (fun a b => oveq a b = false)
      ↔ (records.map (fun r => getOwn r pk)).Nodup := by
    constructor
    · intro h
      refine h.imp_of_mem ?_
      intro a b ha _ hab heq
      subst heq
      obtain ⟨r, hr, rfl⟩ := List.mem_map.mp ha
      rw [hrefl r hr] at hab
      cases hab
    · intro h
      refine h.imp_of_mem ?_
      intro a b ha _ hab
      cases hx : oveq a b
      · rfl
      · exfalso
        apply hab
        refine (oveq_eq_iff ?_).mp hx
        intro v hv
        obtain ⟨r, hr, rfl⟩ := List.mem_map.mp ha
        exact hscal r hr v hv
  constructor
  · by_cases hempty : records.isEmpty = true
    · have h0 : records = [] := List.isEmpty_iff.mp hempty
      subst h0
      simp [validateRecords]
    · by_cases hall : records.all (fun r => hasOwn r pk) = true
      · have hV : validateRecords records pk = findDup pk [] records := by
          simp [validateRecords, hempty, hall]
        rw [hV]
        constructor
        · intro hsome
          right; right
          intro hnd
          apply Option.isSome_iff_ne_none.mp hsome
          rw [findDup_none_iff]
          exact ⟨hbridge.mpr hnd, by simp⟩
        · rintro (h0 | ⟨r, hr, hro⟩ | hnd)
          · rw [h0] at hempty
            simp at hempty
          · have := List.all_eq_true.mp hall r hr
            rw [hro] at this
            cases this
          · rw [Option.isSome_iff_ne_none]
            intro hnone
            rw [findDup_none_iff] at hnone
            exact hnd (hbridge.mp hnone.1)
      · have hV : validateRecords records pk = some .missingPkField := by
          simp [validateRecords, hempty, hall]
        rw [hV]
        refine ⟨fun _ => Or.inr (Or.inl ?_), fun _ => rfl⟩
        have hex : ¬ ∀ r ∈ records, hasOwn r pk = true :=
          fun hforall => hall (List.all_eq_true.mpr hforall)
        push_neg at hex
        obtain ⟨r, hr, hfalse⟩ := hex
        exact ⟨r, hr, by simpa using hfalse⟩
  · intro hown hcount hother
    have hne : records ≠ [] := by
      intro h0
      subst h0
      simp at hcount
    have hV : validateRecords records pk = findDup pk [] records := by
      have hempty : records.isEmpty = false := by
        cases records with
        | nil => exact absurd rfl hne
        | cons a l => rfl
      have hall : records.all (fun r => hasOwn r pk) = true := List.all_eq_true.mpr hown
      simp [validateRecords, hempty, hall]
    rw [hV]
    rcases hfd : findDup pk [] records with _ | e
    · exfalso
      rw [findDup_none_iff] at hfd
      have := pairwise_null_count hfd.1
      omega
    · obtain ⟨k, rfl, hc⟩ := findDup_some pk records [] e hrefl hfd
      have hk : oveq k (some vnull) = true := by
        cases hx : oveq k (some vnull)
        · exfalso
          have := hother k hx
          simp only [List.countP_nil] at hc
          omega
        · rfl
      rw [(oveq_null_iff k).mp hk]

theorem foldl_preserve {P : β → Prop} {step : β → α → β}
    (hstep : ∀ s x, P s → P (step s x)) : ∀ (l : List α) (s : β), P s → P (l.foldl step s) := by
  intro l
  induction l with
  | nil => exact fun s h => h
  | cons x xs ih => exact fun s h => ih _ (hstep s x h)

theorem lookup_cons (p k : String) (v : β) (rest : List (String × β)) :
    List.lookup p ((k, v) :: rest) = if p = k then some v else List.lookup p rest := by
  by_cases h : p = k
  · rw [if_pos h]
    show (match p == k with | true => some v | false => List.lookup p rest) = some v
    rw [beq_iff_eq.mpr h]
  · rw [if_neg h]
    show (match p == k with | true => some v | false => List.lookup p rest)
      = List.lookup p rest
    rw [beq_eq_false_iff_ne.mpr h]

theorem lookup_alModify (m : List (String × β)) (q : String) (f : β → β) (p : String) :
    List.lookup p (alModify m q f) = if p = q then (List.lookup p m).map f
      else List.lookup p m := by
  induction m with
  | nil => simp [alModify]
  | cons kv rest ih =>
    obtain ⟨k, v⟩ := kv
    show List.lookup p (if k = q then (k, f v) :: rest else (k, v) :: alModify rest q f) = _
    by_cases hkq : k = q
    · rw [if_pos hkq, lookup_cons, lookup_cons]
      subst hkq
      by_cases hpk : p = k
      · rw [if_pos hpk, if_pos hpk, if_pos hpk]
        rfl
      · rw [if_neg hpk, if_neg hpk, if_neg hpk]
    · rw [if_neg hkq, lookup_cons, lookup_cons, ih]
      by_cases hpk : p = k
      · have hpq : ¬ p = q := fun h => hkq (hpk ▸ h)
        rw [if_pos hpk, if_pos hpk, if_neg hpq]
      · rw [if_neg hpk, if_neg hpk]

theorem lookup_append_left {m l : List (String × β)} {p : String} {v : β}
    (h : List.lookup p m = some v) : List.lookup p (m ++ l) = some v := by
  induction m with
  | nil => cases h
  | cons kv rest ih =>
    obtain ⟨k, w⟩ := kv
    rw [lookup_cons] at h
    rw [List.cons_append, lookup_cons]
    by_cases hpk : p = k
    · rw [if_pos hpk] at h ⊢
      exact h
    · rw [if_neg hpk] at h ⊢
      exact ih h

theorem lookup_append_none {m l : List (String × β)} {p : String}
    (h : List.lookup p m = none) : List.lookup p (m ++ l) = List.lookup p l := by
  induction m with
  | nil => rfl
  | cons kv rest ih =>
    obtain ⟨k, w⟩ := kv
    rw [lookup_cons] at h
    rw [List.cons_append, lookup_cons]
    by_cases hpk : p = k
    · rw [if_pos hpk] at h
      cases h
    · rw [if_neg hpk] at h ⊢
      exact ih h

theorem vmFind_append_left {vm l : ValMap} {v : Value} {ids : List String}
    (h : vmFind vm v = some ids) : vmFind (vm ++ l) v = some ids := by
  induction vm with
  | nil => cases h
  | cons kv rest ih =>
    obtain ⟨k, i⟩ := kv
    by_cases hk : veq k v
    · simp [vmFind, hk] at h ⊢
      exact h
    · simp [vmFind, hk] at h ⊢
      exact ih h

theorem vmFind_append_none {vm l : ValMap} {v : Value}
    (h : vmFind vm v = none) : vmFind (vm ++ l) v = vmFind l v := by
  induction vm with
  | nil => rfl
  | cons kv rest ih =>
    obtain ⟨k, i⟩ := kv
    by_cases hk : veq k v
    · simp [vmFind, hk] at h
    · simp [vmFind, hk] at h ⊢
      exact ih h

theorem vmFind_vmSet_self {vm : ValMap} {v : Value} {i0 nl : List String}
    (h : vmFind vm v = some i0) : vmFind (vmSet vm v nl) v = some nl := by
  induction vm with
  | nil => cases h
  | cons kv rest ih =>
    obtain ⟨k, i⟩ := kv
    by_cases hk : veq k v
    · simp [vmFind, vmSet, hk]
    · simp [vmFind, vmSet, hk] at h ⊢
      exact ih h

theorem vmFind_vmSet_pres {vm : ValMap} {w : Value} {nl : List String} {v : Value}
    {ids : List String} {rid : String}
    (h : vmFind vm v = some ids) (hrid : rid ∈ ids)
    (hsub : ∀ i0, vmFind vm w = some i0 → ∀ x ∈ i0, x ∈ nl) :
    ∃ ids', vmFind (vmSet vm w nl) v = some ids' ∧ rid ∈ ids' := by
  induction vm with
  | nil => cases h
  | cons kv rest ih =>
    obtain ⟨k, i⟩ := kv
    by_cases hkw : veq k w
    · by_cases hkv : veq k v
      · simp [vmFind, hkv] at h
        subst h
        refine ⟨nl, ?_, ?_⟩
        · simp [vmSet, hkw, vmFind, hkv]
        · exact hsub i (by simp [vmFind, hkw]) rid hrid
      · simp [vmFind, hkv] at h
        refine ⟨ids, ?_, hrid⟩
        simp [vmSet, hkw, vmFind, hkv]
        exact h
    · by_cases hkv : veq k v
      · simp [vmFind, hkv] at h
        subst h
        refine ⟨i, ?_, hrid⟩
        simp [vmSet, hkw, vmFind, hkv]
      · simp [vmFind, hkv] at h
        have hsub' : ∀ i0, vmFind rest w = some i0 → ∀ x ∈ i0, x ∈ nl := by
          intro i0 hi0
          exact hsub i0 (by simp [vmFind, hkw]; exact hi0)
        obtain ⟨ids', h1, h2⟩ := ih h hsub'
        refine ⟨ids', ?_, h2⟩
        simp [vmSet, hkw, vmFind, hkv]
        exact h1

theorem addToIndex_self {vm : ValMap} {v : Value} {rid : String}
    (hv : veq v v = true) :
    ∃ ids, vmFind (addToIndex vm v rid) v = some ids ∧ rid ∈ ids := by
  unfold addToIndex
  rcases hf : vmFind vm v with _ | ids0
  · refine ⟨[rid], ?_, List.mem_singleton_self rid⟩
    rw [vmFind_append_none hf]
    simp [vmFind, hv]
  · refine ⟨setAdd ids0 rid, vmFind_vmSet_self hf, ?_⟩
    exact mem_setAdd.mpr (Or.inr rfl)

theorem addToIndex_pres {vm : ValMap} {w : Value} {rid' : String} {v : Value}
    {ids : List String} {rid : String}
    (h : vmFind vm v = some ids) (hrid : rid ∈ ids) :
    ∃ ids', vmFind (addToIndex vm w rid') v = some ids' ∧ rid ∈ ids' := by
  unfold addToIndex
  rcases hf : vmFind vm w with _ | idsw
  · exact ⟨ids, vmFind_append_left h, hrid⟩
  · refine vmFind_vmSet_pres h hrid ?_
    intro i0 hi0 x hx
    rw [hf] at hi0
    cases hi0
    exact mem_setAdd.mpr (Or.inl hx)

theorem hasObs_incCount {st : BuildState} {q p : String} {v : Value} {rid : String}
    (h : hasObs st p v rid) : hasObs (incCount st q) p v rid := h

theorem hasObs_setFType {st : BuildState} {q t p : String} {v : Value} {rid : String}
    (h : hasObs st p v rid) : hasObs (setFType st q t) p v rid := h

theorem hasObs_ensureField {st : BuildState} {q p : String} {v : Value} {rid : String}
    (h : hasObs st p v rid) : hasObs (ensureField st q) p v rid := by
  obtain ⟨vm, ids, hl, hf, hr⟩ := h
  refine ⟨vm, ids, ?_, hf, hr⟩
  show List.lookup p
    (match List.lookup q st.fieldStats with
      | some _ => st.fieldStats
      | none => st.fieldStats ++ [(q, [])]) = some vm
  rcases hq : List.lookup q st.fieldStats with _ | vmq
  · exact lookup_append_left hl
  · exact hl

theorem hasObs_addObs {st : BuildState} {q : String} {w : Value} {rid' p : String}
    {v : Value} {rid : String}
    (h : hasObs st p v rid) : hasObs (addObs st q w rid') p v rid := by
  obtain ⟨vm, ids, hl, hf, hr⟩ := h
  by_cases hpq : p = q
  · obtain ⟨ids', h1, h2⟩ := @addToIndex_pres vm w rid' v ids rid hf hr
    refine ⟨addToIndex vm w rid', ids', ?_, h1, h2⟩
    show List.lookup p (alModify st.fieldStats q (fun vm => addToIndex vm w rid')) = _
    rw [lookup_alModify, if_pos hpq, hl]
    rfl
  · refine ⟨vm, ids, ?_, hf, hr⟩
    show List.lookup p (alModify st.fieldStats q (fun vm => addToIndex vm w rid')) = some vm
    rw [lookup_alModify, if_neg hpq, hl]

theorem statKey_ensureField_self (st : BuildState) (p : String) :
    (List.lookup p (ensureField st p).fieldStats).isSome = true := by
  show (List.lookup p
    (match List.lookup p st.fieldStats with
      | some _ => st.fieldStats
      | none => st.fieldStats ++ [(p, [])])).isSome = true
  rcases hq : List.lookup p st.fieldStats with _ | vmq
  · rw [lookup_append_none hq, lookup_cons, if_pos rfl]
    rfl
  · rw [hq]
    rfl

theorem statKey_addObs {st : BuildState} {p q : String} {w : Value} {rid' : String}
    (h : (List.lookup p st.fieldStats).isSome = true) :
    (List.lookup p (addObs st q w rid').fieldStats).isSome = true := by
  show (List.lookup p (alModify st.fieldStats q (fun vm => addToIndex vm w rid'))).isSome = true
  rw [lookup_alModify]
  split
  · rcases hl : List.lookup p st.fieldStats with _ | vm
    · rw [hl] at h
      cases h
    · rfl
  · exact h

theorem hasObs_addObs_self {st : BuildState} {p : String} {v : Value} {rid : String}
    (hkey : (List.lookup p st.fieldStats).isSome = true) (hv : isPrimitive v = true) :
    hasObs (addObs st p v rid) p v rid := by
  rcases hvm : List.lookup p st.fieldStats with _ | vm
  · rw [hvm] at hkey
    cases hkey
  · obtain ⟨ids, h1, h2⟩ := @addToIndex_self vm v rid (veq_refl_prim hv)
    refine ⟨addToIndex vm v rid, ids, ?_, h1, h2⟩
    show List.lookup p (alModify st.fieldStats p (fun vm => addToIndex vm v rid)) = _
    rw [lookup_alModify, if_pos rfl, hvm]
    rfl

/-- Observations only grow along the walk: every recorded (path, value,
record id) triple survives further walking. -/
theorem walk_hasObs_mono (p : String) (v : Value) (rid0 : String) :
    (∀ (st : BuildState) (flds : List (String × Value)) (rid pfx : String),
      hasObs st p v rid0 → hasObs (analyzeFields st flds rid pfx) p v rid0)
    ∧ (∀ (st : BuildState) (items : List Value) (rid pfx : String),
      hasObs st p v rid0 → hasObs (analyzeArrayObjects st items rid pfx) p v rid0) := by
  refine analyzeFields.mutual_induct
    (fun st flds rid pfx => hasObs st p v rid0 → hasObs (analyzeFields st flds rid pfx) p v rid0)
    (fun st items rid pfx =>
      hasObs st p v rid0 → hasObs (analyzeArrayObjects st items rid pfx) p v rid0)
    ?_ ?_ ?_ ?_ ?_ ?_ ?_ ?_
  · intro st x x1 h
    simp only [analyzeFields]
    exact h
  · intro st key rest recordId pfx h
    simp only [analyzeFields]
    exact hasObs_addObs (hasObs_incCount (hasObs_ensureField h))
  · intro st key rest recordId pfx fieldPath st1 items st2 st3 st4 ih2 _ ih1 h
    simp only [analyzeFields]
    apply ih1
    apply ih2
    exact @foldl_preserve _ _ (fun s => hasObs s p v rid0) _
      (fun s x hs => by
        split
        · exact hasObs_addObs hs
        · exact hs)
      items st2 (hasObs_setFType (hasObs_incCount (hasObs_ensureField h)))
  · intro st key rest recordId pfx fieldPath st1 fs st2 st3 ih_fs _ ih_rest h
    simp only [analyzeFields]
    exact ih_rest (ih_fs (hasObs_setFType (hasObs_incCount (hasObs_ensureField h))))
  · intro st key rest recordId pfx fieldPath st1 prim h1 h2 h3 ih h
    cases prim with
    | vnull => exact absurd rfl h1
    | varr items => exact absurd rfl (h2 items)
    | vobj fs => exact absurd rfl (h3 fs)
    | vbool b =>
      simp only [analyzeFields]
      exact ih (hasObs_addObs (hasObs_incCount (hasObs_ensureField h)))
    | vint n =>
      simp only [analyzeFields]
      exact ih (hasObs_addObs (hasObs_incCount (hasObs_ensureField h)))
    | vstr s =>
      simp only [analyzeFields]
      exact ih (hasObs_addObs (hasObs_incCount (hasObs_ensureField h)))
  · intro st x x1 h
    simp only [analyzeArrayObjects]
    exact h
  · intro st fs rest recordId pfx ih_fs ih_rest h
    simp only [analyzeArrayObjects]
    exact ih_rest (ih_fs h)
  · intro st head rest recordId pfx hne ih h
    cases head with
    | vobj fs => exact absurd rfl (hne fs)
    | vnull =>
      simp only [analyzeArrayObjects]
      exact ih h
    | vbool b =>
      simp only [analyzeArrayObjects]
      exact ih h
    | vint n =>
      simp only [analyzeArrayObjects]
      exact ih h
    | varr items =>
      simp only [analyzeArrayObjects]
      exact ih h
    | vstr s =>
      simp only [analyzeArrayObjects]
      exact ih h

theorem analyzeFields_first_scalar {st : BuildState} {k : String} {v : Value}
    {fs : List (String × Value)} {rid pfx : String} (hv : isPrimitive v = true) :
    hasObs (analyzeFields st ((k, v) :: fs) rid pfx) (mkFieldPath pfx k) v rid := by
  have hkey : (List.lookup (mkFieldPath pfx k)
      (incCount (ensureField st (mkFieldPath pfx k)) (mkFieldPath pfx k)).fieldStats).isSome
      = true := statKey_ensureField_self st (mkFieldPath pfx k)
  cases v with
  | vnull =>
    simp only [analyzeFields]
    exact hasObs_addObs_self hkey hv
  | vbool b =>
    simp only [analyzeFields]
    exact (walk_hasObs_mono _ _ _).1 _ fs rid pfx (hasObs_addObs_self hkey hv)
  | vint n =>
    simp only [analyzeFields]
    exact (walk_hasObs_mono _ _ _).1 _ fs rid pfx (hasObs_addObs_self hkey hv)
  | vstr s =>
    simp only [analyzeFields]
    exact (walk_hasObs_mono _ _ _).1 _ fs rid pfx (hasObs_addObs_self hkey hv)
  | varr items => simp [isPrimitive] at hv
  | vobj fs0 => simp [isPrimitive] at hv

theorem foldl_scalar_obs :
    ∀ (items : List Value) (st : BuildState) (fieldPath rid : String) (s : Value),
      s ∈ items → isPrimitive s = true →
      (List.lookup fieldPath st.fieldStats).isSome = true →
      hasObs (items.foldl (fun st item =>
        if isPrimitive item = true then addObs st fieldPath item rid else st) st)
        fieldPath s rid := by
  intro items
  induction items with
  | nil =>
    intro _ _ _ _ h
    cases h
  | cons x xs ih =>
    intro st fieldPath rid s hs hprim hkey
    simp only [List.foldl_cons]
    rcases List.mem_cons.mp hs with rfl | hs'
    · rw [if_pos hprim]
      exact @foldl_preserve _ _ (fun st' => hasObs st' fieldPath s rid) _
        (fun st' x' hst' => by
          split
          · exact hasObs_addObs hst'
          · exact hst')
        xs _ (hasObs_addObs_self hkey hprim)
    · by_cases hx : isPrimitive x = true
      · rw [if_pos hx]
        exact ih _ fieldPath rid s hs' hprim (statKey_addObs hkey)
      · rw [if_neg hx]
        exact ih _ fieldPath rid s hs' hprim hkey

theorem analyzeArrayObjects_creates :
    ∀ (items : List Value) (st : BuildState) (rid pfx : String) (k2 : String) (v2 : Value)
      (fs2 : List (String × Value)),
      vobj ((k2, v2) :: fs2) ∈ items → isPrimitive v2 = true →
      hasObs (analyzeArrayObjects st items rid pfx) (mkFieldPath pfx k2) v2 rid := by
  intro items
  induction items with
  | nil =>
    intro _ _ _ _ _ _ h
    cases h
  | cons x xs ih =>
    intro st rid pfx k2 v2 fs2 hmem hv2
    rcases List.mem_cons.mp hmem with rfl | hmem'
    · simp only [analyzeArrayObjects]
      exact (walk_hasObs_mono _ _ _).2 _ xs rid pfx (analyzeFields_first_scalar hv2)
    · cases x with
      | vobj fs' =>
        simp only [analyzeArrayObjects]
        exact ih _ rid pfx k2 v2 fs2 hmem' hv2
      | vnull =>
        simp only [analyzeArrayObjects]
        exact ih _ rid pfx k2 v2 fs2 hmem' hv2
      | vbool b =>
        simp only [analyzeArrayObjects]
        exact ih _ rid pfx k2 v2 fs2 hmem' hv2
      | vint n =>
        simp only [analyzeArrayObjects]
        exact ih _ rid pfx k2 v2 fs2 hmem' hv2
      | vstr s =>
        simp only [analyzeArrayObjects]
        exact ih _ rid pfx k2 v2 fs2 hmem' hv2
      | varr items0 =>
        simp only [analyzeArrayObjects]
        exact ih _ rid pfx k2 v2 fs2 hmem' hv2

/-- C4 (amended): in the index walk, every scalar element of an
array-valued field is recorded as an observation at the array field's
own dot-joined path, and every object element is recursed into with the
array field's path SUFFIXED BY "[]" as the new prefix — so a nested
object field inside an array (e.g. `tags: [{name: ...}]`) is discovered
under "tags[].name", not "tags.name".  (Earlier sibling fields must not
be null-valued, since a null observation aborts the remaining walk of
the record.) -/
theorem array_object_walk_bracket_path :
    ∀ (pre : List (String × Value)) (st : BuildState) (key : String) (items : List Value)
      (rest : List (String × Value)) (rid pfx : String),
      (∀ kv ∈ pre, kv.2 ≠ vnull) →
      ((∀ s ∈ items, isPrimitive s = true →
        hasObs (analyzeFields st (pre ++ (key, varr items) :: rest) rid pfx)
          (mkFieldPath pfx key) s rid)
      ∧ (∀ (k2 : String) (v2 : Value) (fs2 : List (String × Value)),
        vobj ((k2, v2) :: fs2) ∈ items → isPrimitive v2 = true →
        hasObs (analyzeFields st (pre ++ (key, varr items) :: rest) rid pfx)
          (mkFieldPath (mkFieldPath pfx key ++ "[]") k2) v2 rid)) := by
  intro pre
  induction pre with
  | nil =>
    intro st key items rest rid pfx _
    simp only [List.nil_append]
    constructor
    · intro s hs hsp
      simp only [analyzeFields]
      apply (walk_hasObs_mono _ _ _).1
      apply (walk_hasObs_mono _ _ _).2
      exact foldl_scalar_obs items _ _ _ s hs hsp (statKey_ensureField_self st _)
    · intro k2 v2 fs2 hmem hv2
      simp only [analyzeFields]
      apply (walk_hasObs_mono _ _ _).1
      exact analyzeArrayObjects_creates items _ rid _ k2 v2 fs2 hmem hv2
  | cons kv pre' ih =>
    intro st key items rest rid pfx hpre
    obtain ⟨k0, v0⟩ := kv
    have hv0 : v0 ≠ vnull := hpre (k0, v0) (List.mem_cons_self _ _)
    have hpre' : ∀ kv ∈ pre', kv.2 ≠ vnull := fun kv hkv => hpre kv (List.mem_cons_of_mem _ hkv)
    simp only [List.cons_append]
    cases v0 with
    | vnull => exact absurd rfl hv0
    | varr items0 =>
      simp only [analyzeFields]
      exact ih _ key items rest rid pfx hpre'
    | vobj fs0 =>
      simp only [analyzeFields]
      exact ih _ key items rest rid pfx hpre'
    | vbool b =>
      simp only [analyzeFields]
      exact ih _ key items rest rid pfx hpre'
    | vint n =>
      simp only [analyzeFields]
      exact ih _ key items rest rid pfx hpre'
    | vstr s0 =>
      simp only [analyzeFields]
      exact ih _ key items rest rid pfx hpre'

/-- C4 witness: the walk of `{tags:[{name:"x"}]}` records "x" for record
r1 under the path "tags[].name". -/
theorem array_object_walk_bracket_path_witness :
    hasObs (analyzeFields emptyBuildState [("tags", varr [vobj [("name", vstr "x")]])] "r1" "")
      (mkFieldPath (mkFieldPath "" "tags" ++ "[]") "name") (vstr "x") "r1" := by
  have h := array_object_walk_bracket_path [] emptyBuildState "tags"
    [vobj [("name", vstr "x")]] [] "r1" "" (by intro kv hkv; cases hkv)
  exact h.2 "name" (vstr "x") [] (List.mem_singleton_self _) rfl

/-- C2 witness: three records with keys "a", null, null — two null keys —
fail validation with a duplicate-key error citing null. -/
theorem validateRecords_pk_invariants_witness :
    validateRecords [vobj [("id", vstr "a")], vobj [("id", vnull)], vobj [("id", vnull)]] "id"
      = some (.duplicateKey (some vnull)) := by
  have h := validateRecords_pk_invariants
    [vobj [("id", vstr "a")], vobj [("id", vnull)], vobj [("id", vnull)]] "id"
    (by
      intro r hr v hv
      fin_cases hr <;> (injection hv with hv; subst hv; rfl))
  refine h.2 (by decide) (by decide) ?_
  intro x hx
  have hx' : oveq (some vnull) x = false := by
    cases hsym : oveq (some vnull) x
    · rfl
    · rw [oveq_symm] at hsym
      rw [hsym] at hx
      cases hx
  have hmap : ([vobj [("id", vstr "a")], vobj [("id", vnull)], vobj [("id", vnull)]].map
      (fun r => getOwn r "id")) = [some (vstr "a"), some vnull, some vnull] := rfl
  rw [hmap]
  simp only [List.countP_cons, List.countP_nil, hx', Bool.false_eq_true, if_false]
  split <;> omega
